import Mathlib

/-!
Verification of the playback scheduling engine of the Timed-Audio-Queue
repository.  The TypeScript sources are shallowly embedded: JavaScript
numbers become rationals, records keyed by id become lists of ids, the
React event loop becomes an explicit event-step function on a scheduler
state.  Entry ids of the form "recId-play-N" are modelled as pairs
(recId, N); this encoding is injective because N ranges over 1..6.
-/

namespace TimedAudioQueue

/-- JavaScript `Math.round`: nearest integer, ties toward positive infinity. -/
def jround (q : ℚ) : ℤ := ⌊q + 1/2⌋

/-- JavaScript `Number(x.toFixed(2))`: value rounded to two decimal places. -/
def roundTo2 (q : ℚ) : ℚ := (jround (100 * q) : ℚ) / 100

/-- `RepeatSetting` from src/src/App.tsx: per-slot gap (seconds), playback
rate, and optional enabled flag (`none` models an absent property). -/
structure RepeatSetting where
  gapSeconds : ℚ
  playbackRate : ℚ
  enabled : Option Bool := none
deriving DecidableEq, Repr

/-- `MAX_REPEAT_PLAYS` from src/src/utils/repeats.ts. -/
def MAX_REPEAT_PLAYS : Nat := 6

/-- `DEFAULT_REPEAT` from src/src/utils/repeats.ts (no enabled property). -/
def DEFAULT_REPEAT : RepeatSetting := { gapSeconds := 30, playbackRate := 1 }

/-- The per-entry coercion performed by `sanitizeRepeatSettings`
(src/src/utils/repeats.ts lines 16-19): clamp the gap to a non-negative
integer and the rate to [0.5, 3] after rounding to two decimals.  The
mapped object literal carries no `enabled` property. -/
def sanitizeOne (r : RepeatSetting) : RepeatSetting :=
  { gapSeconds := max 0 (jround r.gapSeconds : ℚ)
    playbackRate := min 3 (max (1/2) (roundTo2 r.playbackRate))
    enabled := none }

/-- `sanitizeRepeatSettings` from src/src/utils/repeats.ts: slice to 6,
coerce each entry, pad with `DEFAULT_REPEAT` up to 6 (the source's while
loop is rendered as a replicate-append of the missing count). -/
def sanitizeRepeatSettings (repeats : List RepeatSetting) : List RepeatSetting :=
  let sanitized := (repeats.take MAX_REPEAT_PLAYS).map sanitizeOne
  sanitized ++ List.replicate (MAX_REPEAT_PLAYS - sanitized.length) DEFAULT_REPEAT

/-- The per-entry coercion in `Settings.handleSubmit`
(src/unnamed/part_008 lines 138-142): same clamps as
`sanitizeOne`, plus `enabled: repeat.enabled !== false`. -/
def sanitizeOneSubmit (r : RepeatSetting) : RepeatSetting :=
  { gapSeconds := max 0 (jround r.gapSeconds : ℚ)
    playbackRate := min 3 (max (1/2) (roundTo2 r.playbackRate))
    enabled := some (r.enabled ≠ some false) }

/-- The padding entry pushed by `Settings.handleSubmit`
(src/unnamed/part_008 line 145). -/
def SUBMIT_PAD : RepeatSetting := { gapSeconds := 30, playbackRate := 1, enabled := some true }

/-- The slice/coerce/pad part of `Settings.handleSubmit`
(src/unnamed/part_008 lines 138-146), before the at-least-one-enabled fixup. -/
def sanitizedRepeatsPreForce (repeatSettings : List RepeatSetting) : List RepeatSetting :=
  let sanitized := (repeatSettings.take 6).map sanitizeOneSubmit
  sanitized ++ List.replicate (6 - sanitized.length) SUBMIT_PAD

/-- The normalization performed by `Settings.handleSubmit`
(src/unnamed/part_008 lines 136-152): slice to 6, coerce, pad with
`{gapSeconds: 30, playbackRate: 1, enabled: true}`, and if no entry is
enabled after coercion force entry 0's enabled flag to true. -/
def sanitizedRepeatsSubmit (repeatSettings : List RepeatSetting) : List RepeatSetting :=
  let sanitized := sanitizedRepeatsPreForce repeatSettings
  if sanitized.any (fun r => r.enabled ≠ some false) then sanitized
  else
    match sanitized with
    | [] => []
    | r :: rest => { r with enabled := some true } :: rest

/-- `sanitizedRepeats` from the Playlist component
(src/src/components/Playlist.tsx lines 378-391): slice to 6, clamp the gap
to be non-negative (no rounding here) and the rate to [0.5, 3] (no
two-decimal rounding here), pad with `{gapSeconds: 30, playbackRate: 1}`. -/
def playlistSanitizedRepeats (repeatSettings : List RepeatSetting) : List RepeatSetting :=
  let normalized := (repeatSettings.take 6).map (fun r =>
    { gapSeconds := max 0 r.gapSeconds
      playbackRate := min 3 (max (1/2) r.playbackRate)
      enabled := none : RepeatSetting })
  normalized ++ List.replicate (6 - normalized.length) { gapSeconds := 30, playbackRate := 1 }

/-- `nextPlayTimes` from the Settings component (src/unnamed/part_008
lines 231-245): for each slot in order, `none` when the slot is disabled,
otherwise the running sum (in seconds) of `max 0 gapSeconds` over the
enabled slots up to and including this one. -/
def nextPlayTimesAux (total : ℚ) : List RepeatSetting → List (Option ℚ)
  | [] => []
  | r :: rest =>
    if r.enabled = some false then
      none :: nextPlayTimesAux total rest
    else
      (some (total + max 0 r.gapSeconds)) :: nextPlayTimesAux (total + max 0 r.gapSeconds) rest

def nextPlayTimes (repeatSettings : List RepeatSetting) : List (Option ℚ) :=
  nextPlayTimesAux 0 repeatSettings

/-! ### Arithmetic facts about the JavaScript-style rounding helpers -/

theorem jround_intCast (n : ℤ) : jround (n : ℚ) = n := by
  rw [jround, Int.floor_eq_iff]
  constructor
  · linarith
  · have h : ((n + 1 : ℤ) : ℚ) = (n : ℚ) + 1 := by push_cast; ring
    linarith [h]

theorem jround_eq_of_eq_intCast (n : ℤ) (q : ℚ) (h : q = (n : ℚ)) : jround q = n :=
  h ▸ jround_intCast n

theorem roundTo2_intCast_div (k : ℤ) : roundTo2 ((k : ℚ) / 100) = (k : ℚ) / 100 := by
  have h : (100 : ℚ) * ((k : ℚ) / 100) = (k : ℚ) := by
    field_simp
  rw [roundTo2, h, jround_intCast]

theorem roundTo2_roundTo2 (q : ℚ) : roundTo2 (roundTo2 q) = roundTo2 q := by
  have h : roundTo2 q = ((jround (100 * q) : ℤ) : ℚ) / 100 := rfl
  rw [h, roundTo2_intCast_div]

theorem roundTo2_one : roundTo2 (1 : ℚ) = 1 := by
  have h := roundTo2_intCast_div 100
  norm_num at h
  exact h

theorem clampRate_mem (x : ℚ) :
    1/2 ≤ min 3 (max (1/2) x) ∧ min 3 (max (1/2) x) ≤ 3 := by
  constructor
  · exact le_min (by norm_num) (le_max_left _ _)
  · exact min_le_left _ _

theorem clampRate_clamp (x : ℚ) :
    min 3 (max (1/2) (min 3 (max (1/2) x))) = min 3 (max (1/2) x) := by
  obtain ⟨h1, h2⟩ := clampRate_mem x
  rw [max_eq_right h1, min_eq_right h2]

theorem roundTo2_clampRate (x : ℚ) :
    roundTo2 (min 3 (max (1/2) (roundTo2 x))) = min 3 (max (1/2) (roundTo2 x)) := by
  rcases min_cases 3 (max (1/2) (roundTo2 x)) with ⟨h, _⟩ | ⟨h, _⟩
  · rw [h]
    have : (3 : ℚ) = ((300 : ℤ) : ℚ) / 100 := by norm_num
    rw [this, roundTo2_intCast_div]
  · rw [h]
    rcases max_cases (1/2 : ℚ) (roundTo2 x) with ⟨h', _⟩ | ⟨h', _⟩
    · rw [h']
      have : (1/2 : ℚ) = ((50 : ℤ) : ℚ) / 100 := by norm_num
      rw [this, roundTo2_intCast_div]
    · rw [h', roundTo2_roundTo2]

theorem clampGap_exists_nat (g : ℚ) : ∃ n : ℕ, max 0 (jround g : ℚ) = (n : ℚ) := by
  refine ⟨(max 0 (jround g)).toNat, ?_⟩
  have h0 : (0 : ℤ) ≤ max 0 (jround g) := le_max_left _ _
  have h : max 0 (jround g : ℚ) = ((max 0 (jround g) : ℤ) : ℚ) := by
    push_cast
    rfl
  rw [h]
  exact_mod_cast congrArg (fun z : ℤ => (z : ℚ)) (Int.toNat_of_nonneg h0).symm

theorem jround_clampGap (g : ℚ) :
    jround (max 0 (jround g : ℚ)) = max 0 (jround g) := by
  have h : (max 0 (jround g : ℚ)) = ((max 0 (jround g) : ℤ) : ℚ) := by
    push_cast
    rfl
  rw [h, jround_intCast]

/-! ### C9: normalization idempotence of sanitizeRepeatSettings -/

theorem sanitizeOne_sanitizeOne (r : RepeatSetting) :
    sanitizeOne (sanitizeOne r) = sanitizeOne r := by
  simp only [sanitizeOne]
  congr 1
  · rw [jround_clampGap]
    push_cast
    rw [← max_assoc, max_self]
  · rw [roundTo2_clampRate, clampRate_clamp]

theorem sanitizeOne_default : sanitizeOne DEFAULT_REPEAT = DEFAULT_REPEAT := by
  simp only [sanitizeOne, DEFAULT_REPEAT]
  congr 1
  · rw [jround_eq_of_eq_intCast 30 _ (by norm_num)]
    norm_num
  · rw [roundTo2_one]
    norm_num

theorem sanitizeRepeatSettings_length (l : List RepeatSetting) :
    (sanitizeRepeatSettings l).length = MAX_REPEAT_PLAYS := by
  simp only [sanitizeRepeatSettings, List.length_append, List.length_map,
    List.length_replicate, List.length_take]
  omega

/-- C9: applying the normalizer from src/src/utils/repeats.ts to its own
output yields an identical result. -/
theorem sanitizeRepeatSettings_idem (l : List RepeatSetting) :
    sanitizeRepeatSettings (sanitizeRepeatSettings l) = sanitizeRepeatSettings l := by
  have hlen := sanitizeRepeatSettings_length l
  conv_lhs => rw [sanitizeRepeatSettings]
  rw [List.take_of_length_le (by rw [hlen])]
  have hmap : (sanitizeRepeatSettings l).map sanitizeOne = sanitizeRepeatSettings l := by
    rw [sanitizeRepeatSettings, List.map_append, List.map_map, List.map_replicate,
      sanitizeOne_default]
    congr 1
    apply List.map_congr_left
    intro r _
    exact sanitizeOne_sanitizeOne r
  rw [hmap, hlen]
  simp

/-! ### C6: postcondition of the Settings normalizer -/

theorem sanitizedRepeatsPreForce_length (l : List RepeatSetting) :
    (sanitizedRepeatsPreForce l).length = 6 := by
  simp only [sanitizedRepeatsPreForce, List.length_append, List.length_map,
    List.length_replicate, List.length_take]
  omega

theorem mem_sanitizedRepeatsPreForce {l : List RepeatSetting} {r : RepeatSetting}
    (h : r ∈ sanitizedRepeatsPreForce l) :
    (∃ x ∈ l.take 6, r = sanitizeOneSubmit x) ∨ r = SUBMIT_PAD := by
  simp only [sanitizedRepeatsPreForce, List.mem_append, List.mem_map,
    List.mem_replicate] at h
  rcases h with ⟨x, hx, hr⟩ | ⟨-, hr⟩
  · exact Or.inl ⟨x, hx, hr.symm⟩
  · exact Or.inr hr

theorem enabled_isSome_of_mem_preForce {l : List RepeatSetting} {r : RepeatSetting}
    (h : r ∈ sanitizedRepeatsPreForce l) : ∃ b, r.enabled = some b := by
  rcases mem_sanitizedRepeatsPreForce h with ⟨x, -, rfl⟩ | rfl
  · exact ⟨_, rfl⟩
  · exact ⟨true, rfl⟩

theorem sanitizedRepeatsSubmit_eq_of_any {l : List RepeatSetting}
    (h : (sanitizedRepeatsPreForce l).any (fun r => r.enabled ≠ some false) = true) :
    sanitizedRepeatsSubmit l = sanitizedRepeatsPreForce l := by
  simp only [sanitizedRepeatsSubmit, h, if_true]

theorem sanitizedRepeatsSubmit_cases (l : List RepeatSetting) :
    sanitizedRepeatsSubmit l = sanitizedRepeatsPreForce l ∨
      ∃ r rest, sanitizedRepeatsPreForce l = r :: rest ∧
        sanitizedRepeatsSubmit l = { r with enabled := some true } :: rest := by
  by_cases h : (sanitizedRepeatsPreForce l).any (fun r => r.enabled ≠ some false) = true
  · exact Or.inl (sanitizedRepeatsSubmit_eq_of_any h)
  · right
    have hlen := sanitizedRepeatsPreForce_length l
    obtain ⟨r, rest, hcons⟩ : ∃ r rest, sanitizedRepeatsPreForce l = r :: rest := by
      cases hpre : sanitizedRepeatsPreForce l with
      | nil => rw [hpre] at hlen; simp at hlen
      | cons a t => exact ⟨a, t, rfl⟩
    refine ⟨r, rest, hcons, ?_⟩
    rw [hcons] at h
    simp only [sanitizedRepeatsSubmit, hcons, if_neg h]

theorem length_sanitizedRepeatsSubmit (l : List RepeatSetting) :
    (sanitizedRepeatsSubmit l).length = 6 := by
  rcases sanitizedRepeatsSubmit_cases l with h | ⟨r, rest, hpre, h⟩
  · rw [h, sanitizedRepeatsPreForce_length]
  · have := sanitizedRepeatsPreForce_length l
    rw [hpre] at this
    rw [h]
    simpa using this

theorem mem_sanitizedRepeatsSubmit {l : List RepeatSetting} {r : RepeatSetting}
    (h : r ∈ sanitizedRepeatsSubmit l) :
    ∃ r₀ ∈ sanitizedRepeatsPreForce l,
      r.gapSeconds = r₀.gapSeconds ∧ r.playbackRate = r₀.playbackRate := by
  rcases sanitizedRepeatsSubmit_cases l with hc | ⟨r₀, rest, hpre, hc⟩
  · exact ⟨r, hc ▸ h, rfl, rfl⟩
  · rw [hc] at h
    rcases List.mem_cons.1 h with rfl | hmem
    · exact ⟨r₀, by rw [hpre]; exact List.mem_cons_self _ _, rfl, rfl⟩
    · exact ⟨r, by rw [hpre]; exact List.mem_cons_of_mem _ hmem, rfl, rfl⟩

theorem preForce_getElem_map {l : List RepeatSetting} {i : ℕ} {x : RepeatSetting}
    (hx : l[i]? = some x) (h6 : i < 6) :
    (sanitizedRepeatsPreForce l)[i]? = some (sanitizeOneSubmit x) := by
  have hi : i < l.length := by
    by_contra hcon
    rw [List.getElem?_eq_none (by omega)] at hx
    exact Option.noConfusion hx
  have hlt : i < ((l.take 6).map sanitizeOneSubmit).length := by
    simp only [List.length_map, List.length_take]
    omega
  rw [sanitizedRepeatsPreForce]
  rw [List.getElem?_append_left hlt, List.getElem?_map, List.getElem?_take_of_lt h6, hx]
  rfl

theorem preForce_getElem_pad {l : List RepeatSetting} {i : ℕ}
    (h6 : i < 6) (hi : l.length ≤ i) :
    (sanitizedRepeatsPreForce l)[i]? = some SUBMIT_PAD := by
  have hmaplen : ((l.take 6).map sanitizeOneSubmit).length = l.length := by
    simp only [List.length_map, List.length_take]
    omega
  rw [sanitizedRepeatsPreForce, List.getElem?_append_right (by omega),
    List.getElem?_replicate_of_lt (by omega)]

theorem sanitizedRepeatsPreForce_take (l : List RepeatSetting) :
    sanitizedRepeatsPreForce (l.take 6) = sanitizedRepeatsPreForce l := by
  simp only [sanitizedRepeatsPreForce, List.take_take]
  norm_num

theorem mem_of_getElem?_eq_some {α : Type _} {l : List α} {i : ℕ} {a : α}
    (h : l[i]? = some a) : a ∈ l := by
  have hi : i < l.length := by
    by_contra hcon
    rw [List.getElem?_eq_none (by omega)] at h
    exact Option.noConfusion h
  rw [List.getElem?_eq_getElem hi] at h
  exact (Option.some.inj h) ▸ l.getElem_mem hi

theorem pad_mem_preForce {l : List RepeatSetting} (h : l.length < 6) :
    SUBMIT_PAD ∈ sanitizedRepeatsPreForce l :=
  mem_of_getElem?_eq_some (preForce_getElem_pad h le_rfl)

theorem preForce_exists_cons (l : List RepeatSetting) :
    ∃ r rest, sanitizedRepeatsPreForce l = r :: rest := by
  have hlen := sanitizedRepeatsPreForce_length l
  cases hp : sanitizedRepeatsPreForce l with
  | nil => rw [hp] at hlen; simp at hlen
  | cons a t => exact ⟨a, t, rfl⟩

theorem sanitizedRepeatsSubmit_eq_forced {l : List RepeatSetting}
    {r : RepeatSetting} {rest : List RepeatSetting}
    (hcons : sanitizedRepeatsPreForce l = r :: rest)
    (hany : (sanitizedRepeatsPreForce l).any (fun x => x.enabled ≠ some false) = false) :
    sanitizedRepeatsSubmit l = { r with enabled := some true } :: rest := by
  rw [hcons] at hany
  simp only [sanitizedRepeatsSubmit, hcons, hany]
  simp

/-- C6: the normalizer in Settings.handleSubmit (src/unnamed/part_008)
produces exactly 6 entries, coerces every gap to a non-negative integer and
every rate into [0.5, 3], defaults an absent enabled flag to true, drops
entries beyond index 6, pads missing entries with
{gapSeconds: 30, playbackRate: 1, enabled: true}, forces entry 0 enabled
when no entry is enabled after coercion, and always leaves at least one
entry enabled. -/
theorem sanitizedRepeatsSubmit_normalizes (l : List RepeatSetting) :
    (sanitizedRepeatsSubmit l).length = 6
    ∧ (∀ r ∈ sanitizedRepeatsSubmit l, ∃ n : ℕ, r.gapSeconds = (n : ℚ))
    ∧ (∀ r ∈ sanitizedRepeatsSubmit l, 1/2 ≤ r.playbackRate ∧ r.playbackRate ≤ 3)
    ∧ sanitizedRepeatsSubmit l = sanitizedRepeatsSubmit (l.take 6)
    ∧ (∀ i : ℕ, i < 6 → l.length ≤ i → (sanitizedRepeatsSubmit l)[i]? = some SUBMIT_PAD)
    ∧ (∀ i : ℕ, ∀ x : RepeatSetting, l[i]? = some x → i < 6 → x.enabled = none →
        ∃ r, (sanitizedRepeatsSubmit l)[i]? = some r ∧ r.enabled = some true)
    ∧ ((sanitizedRepeatsPreForce l).all (fun r => r.enabled = some false) = true →
        ∃ r rest, sanitizedRepeatsSubmit l = r :: rest ∧ r.enabled = some true)
    ∧ (∃ r ∈ sanitizedRepeatsSubmit l, r.enabled = some true) := by
  refine ⟨length_sanitizedRepeatsSubmit l, ?_, ?_, ?_, ?_, ?_, ?_, ?_⟩
  · intro r hr
    obtain ⟨r₀, hr₀, hg, -⟩ := mem_sanitizedRepeatsSubmit hr
    rw [hg]
    rcases mem_sanitizedRepeatsPreForce hr₀ with ⟨x, -, rfl⟩ | rfl
    · exact clampGap_exists_nat x.gapSeconds
    · exact ⟨30, by norm_num [SUBMIT_PAD]⟩
  · intro r hr
    obtain ⟨r₀, hr₀, -, hp⟩ := mem_sanitizedRepeatsSubmit hr
    rw [hp]
    rcases mem_sanitizedRepeatsPreForce hr₀ with ⟨x, -, rfl⟩ | rfl
    · exact clampRate_mem (roundTo2 x.playbackRate)
    · constructor <;> norm_num [SUBMIT_PAD]
  · simp only [sanitizedRepeatsSubmit, sanitizedRepeatsPreForce_take]
  · intro i h6 hi
    have hmem : SUBMIT_PAD ∈ sanitizedRepeatsPreForce l := pad_mem_preForce (by omega)
    have hany : (sanitizedRepeatsPreForce l).any (fun r => r.enabled ≠ some false) = true :=
      List.any_eq_true.2 ⟨SUBMIT_PAD, hmem, by simp [SUBMIT_PAD]⟩
    rw [sanitizedRepeatsSubmit_eq_of_any hany]
    exact preForce_getElem_pad h6 hi
  · intro i x hx h6 hnone
    have hget := preForce_getElem_map hx h6
    have henb : (sanitizeOneSubmit x).enabled = some true := by
      simp [sanitizeOneSubmit, hnone]
    have hany : (sanitizedRepeatsPreForce l).any (fun r => r.enabled ≠ some false) = true :=
      List.any_eq_true.2 ⟨sanitizeOneSubmit x, mem_of_getElem?_eq_some hget, by simp [henb]⟩
    rw [sanitizedRepeatsSubmit_eq_of_any hany]
    exact ⟨sanitizeOneSubmit x, hget, henb⟩
  · intro hall
    have hany : (sanitizedRepeatsPreForce l).any (fun r => r.enabled ≠ some false) = false := by
      rw [List.any_eq_false]
      intro r hr
      have := List.all_eq_true.1 hall r hr
      simp only [decide_eq_true_eq] at this ⊢
      simp [this]
    obtain ⟨r, rest, hcons⟩ := preForce_exists_cons l
    exact ⟨_, rest, sanitizedRepeatsSubmit_eq_forced hcons hany, rfl⟩
  · by_cases hany : (sanitizedRepeatsPreForce l).any (fun r => r.enabled ≠ some false) = true
    · obtain ⟨r, hr, hp⟩ := List.any_eq_true.1 hany
      obtain ⟨b, hb⟩ := enabled_isSome_of_mem_preForce hr
      simp only [decide_eq_true_eq] at hp
      have hb' : b = true := by
        cases b
        · exact absurd hb hp
        · rfl
      refine ⟨r, ?_, hb' ▸ hb⟩
      rw [sanitizedRepeatsSubmit_eq_of_any hany]
      exact hr
    · have hany' : (sanitizedRepeatsPreForce l).any (fun r => r.enabled ≠ some false) = false := by
        cases hv : (sanitizedRepeatsPreForce l).any (fun r => r.enabled ≠ some false)
        · rfl
        · exact absurd hv hany
      obtain ⟨r, rest, hcons⟩ := preForce_exists_cons l
      refine ⟨{ r with enabled := some true }, ?_, rfl⟩
      rw [sanitizedRepeatsSubmit_eq_forced hcons hany']
      exact List.mem_cons_self _ _

/-- A one-entry configuration with an absent enabled flag, used to witness
the normalizer postcondition. -/
def shortConfig : List RepeatSetting := [{ gapSeconds := 5, playbackRate := 1, enabled := none }]

/-- A configuration with every slot explicitly disabled, used to witness the
force-enable fixup. -/
def allDisabledConfig : List RepeatSetting :=
  List.replicate 6 { gapSeconds := 1, playbackRate := 1, enabled := some false }

/-- Witness for the normalizer postcondition at concrete inputs: padding at
index 3 of a one-entry list, defaulted enabled flag at index 0, and the
force-enable fixup on an all-disabled list. -/
theorem sanitizedRepeatsSubmit_normalizes_witness :
    ((3 : ℕ) < 6 ∧ shortConfig.length ≤ 3
      ∧ (sanitizedRepeatsSubmit shortConfig)[3]? = some SUBMIT_PAD)
    ∧ (∃ r, (sanitizedRepeatsSubmit shortConfig)[0]? = some r ∧ r.enabled = some true)
    ∧ (∃ r rest, sanitizedRepeatsSubmit allDisabledConfig = r :: rest
        ∧ r.enabled = some true) :=
  ⟨⟨by decide, by decide,
      (sanitizedRepeatsSubmit_normalizes shortConfig).2.2.2.2.1 3 (by decide) (by decide)⟩,
    (sanitizedRepeatsSubmit_normalizes shortConfig).2.2.2.2.2.1 0
      { gapSeconds := 5, playbackRate := 1, enabled := none } rfl (by decide) rfl,
    (sanitizedRepeatsSubmit_normalizes allDisabledConfig).2.2.2.2.2.2.1 (by decide)⟩

/-! ### The playback queue / slot scheduler state machine

Embedding of the queue-based Playlist component
(src/src/components/Playlist.tsx, second revision, lines 339-773).  The
component's ref cells become fields of an explicit state record; record
objects keyed by entry id become lists of ids (presence of the key);
the browser event loop becomes an explicit event type with a step
function.  The asynchronous outcome of the platform play() call is
supplied by an oracle.  Items keep only the fields the component reads
(name and url are omitted). -/

/-- An entry id: the source builds the string recId ++ "-play-" ++ N with
N in 1..6, which is injective, so the pair itself is used. -/
abbrev EntryId := String × ℕ

inductive Status where
  | scheduled
  | ready
  | playing
  | done
  | error
deriving DecidableEq, Repr

/-- `PlaylistItem` from src/src/components/Playlist.tsx lines 348-354. -/
structure Item where
  id : EntryId
  createdAt : ℚ
  scheduledAt : ℚ
  playbackRate : ℚ
  status : Status
  errorMessage : Option String := none
deriving DecidableEq, Repr

/-- The mutable state of the Playlist component: items plus the ref cells
timersRef, retryTimersRef, audiosRef (ids with a retained audio element),
playbackQueueRef, pendingAutoplayRef, scheduledRecordingsRef (seen set)
and autoplayUnlockedRef. -/
structure PState where
  items : List Item
  timers : List EntryId
  retryTimers : List EntryId
  audios : List EntryId
  queue : List EntryId
  pending : List EntryId
  seen : List String
  unlocked : Bool
deriving DecidableEq, Repr

def initState : PState :=
  { items := [], timers := [], retryTimers := [], audios := [], queue := [],
    pending := [], seen := [], unlocked := false }

/-- Assignment into a record keyed by id: ensure the key is present. -/
def insertId (l : List EntryId) (id : EntryId) : List EntryId :=
  if id ∈ l then l else l ++ [id]

def getItem (s : PState) (id : EntryId) : Option Item :=
  s.items.find? (fun it => it.id = id)

/-- `getCurrentlyPlayingId` (Playlist.tsx line 414). -/
def getCurrentlyPlayingId (s : PState) : Option EntryId :=
  (s.items.find? (fun it => it.status = Status.playing)).map (fun it => it.id)

/-- `enqueuePlayback` (Playlist.tsx lines 403-406): FIFO append without
duplicate insertion. -/
def enqueuePlayback (s : PState) (id : EntryId) : PState :=
  if id ∈ s.queue then s else { s with queue := s.queue ++ [id] }

/-- `removeFromQueue` (Playlist.tsx lines 410-412). -/
def removeFromQueue (s : PState) (id : EntryId) : PState :=
  { s with queue := s.queue.filter (fun q => q ≠ id) }

/-- `removeItem` (Playlist.tsx lines 416-437): clear both timers, pause and
drop the audio element, leave the pending-autoplay set and the queue, and
filter the item list. -/
def removeItem (s : PState) (id : EntryId) : PState :=
  { items := s.items.filter (fun it => it.id ≠ id)
    timers := s.timers.filter (fun t => t ≠ id)
    retryTimers := s.retryTimers.filter (fun t => t ≠ id)
    audios := s.audios.filter (fun a => a ≠ id)
    queue := s.queue.filter (fun q => q ≠ id)
    pending := s.pending.filter (fun p => p ≠ id)
    seen := s.seen
    unlocked := s.unlocked }

/-- `queueRetry` (Playlist.tsx lines 439-448): arm (or re-arm) the fixed
2-second retry timer. -/
def queueRetry (s : PState) (id : EntryId) : PState :=
  { s with retryTimers := insertId s.retryTimers id }

def clearScheduleTimer (s : PState) (id : EntryId) : PState :=
  { s with timers := s.timers.filter (fun t => t ≠ id) }

def attachAudio (s : PState) (id : EntryId) : PState :=
  { s with audios := insertId s.audios id }

def detachAudio (s : PState) (id : EntryId) : PState :=
  { s with audios := s.audios.filter (fun a => a ≠ id) }

def addPending (s : PState) (id : EntryId) : PState :=
  { s with pending := insertId s.pending id }

/-- Status update clearing the error message (start of `playOnce`,
Playlist.tsx line 466). -/
def setStatusClearMsg (s : PState) (id : EntryId) (st : Status) : PState :=
  { s with items := s.items.map (fun it =>
      if it.id = id then { it with status := st, errorMessage := none } else it) }

/-- Status update attaching an error message (`handleError`,
Playlist.tsx lines 470-480). -/
def setStatusMsg (s : PState) (id : EntryId) (st : Status) (msg : String) : PState :=
  { s with items := s.items.map (fun it =>
      if it.id = id then { it with status := st, errorMessage := some msg } else it) }

/-- Status update keeping the error message (timer fire sets ready,
onended sets done). -/
def setStatusKeepMsg (s : PState) (id : EntryId) (st : Status) : PState :=
  { s with items := s.items.map (fun it =>
      if it.id = id then { it with status := st } else it) }

/-- The synchronous part of `attemptAutoplayUnlock` (Playlist.tsx lines
551-560): at most once per session; the deferred retry of pending entries
runs later as its own event. -/
def armAutoplayUnlock (s : PState) : PState :=
  if s.unlocked then s else { s with unlocked := true }

inductive PlayOutcome where
  | started
  | rejected
deriving DecidableEq, Repr

/-- Resolution of the platform's asynchronous play() call per entry. -/
abbrev Oracle := EntryId → PlayOutcome

def decodeFailedMsg : String := "השמעה נכשלה. בדקו שהקובץ קיים ונתמך."

def manualFailedMsg : String := "ההשמעה נכשלה. נסו שוב."

def autoplayBlockedMsg : String := "הדפדפן חסם השמעה אוטומטית. מנסים שוב אוטומטית."

/-- The synchronous prefix of `playOnce` (Playlist.tsx lines 454-466):
clear the schedule timer, retain an audio element, mark playing and clear
the error message. -/
def playOnceStart (s : PState) (id : EntryId) : PState :=
  setStatusClearMsg (attachAudio (clearScheduleTimer s id) id) id Status.playing

/-- `handleError` with shouldQueueAutoplay and shouldRetry both true
(non-manual rejection, Playlist.tsx lines 468-489): drop the audio, mark
ready with the message, add to the pending-autoplay set, arm the retry. -/
def handleErrorRetryable (s : PState) (id : EntryId) (msg : String) : PState :=
  queueRetry (addPending (setStatusMsg (detachAudio s id) id Status.ready msg) id) id

/-- `playOnce` with manualTrigger false (Playlist.tsx lines 450-519): a
rejected play() is retryable and arms the unlock probe. -/
def playOnceNonManual (s : PState) (id : EntryId) (oc : Oracle) : PState :=
  match getItem s id with
  | none => s
  | some _ =>
    match oc id with
    | PlayOutcome.started => playOnceStart s id
    | PlayOutcome.rejected =>
      armAutoplayUnlock (handleErrorRetryable (playOnceStart s id) id autoplayBlockedMsg)

/-- `playWhenAvailable` with manualTrigger false (Playlist.tsx lines
526-536): defer while a different entry is playing, else take the turn. -/
def playWhenAvailableNonManual (s : PState) (id : EntryId) (oc : Oracle) : PState :=
  match getCurrentlyPlayingId s with
  | some cur =>
    if cur ≠ id then enqueuePlayback s id
    else playOnceNonManual (removeFromQueue s id) id oc
  | none => playOnceNonManual (removeFromQueue s id) id oc

/-- `startNextInQueue` (Playlist.tsx lines 538-543). -/
def startNextInQueue (s : PState) (oc : Oracle) : PState :=
  match s.queue with
  | [] => s
  | nextId :: rest => playWhenAvailableNonManual { s with queue := rest } nextId oc

/-- `handleError` with shouldQueueAutoplay and shouldRetry both false
(terminal failure, Playlist.tsx lines 468-493): drop the audio, mark error
with the message, remove the item and advance the queue. -/
def handleErrorTerminal (s : PState) (id : EntryId) (msg : String) (oc : Oracle) : PState :=
  startNextInQueue (removeItem (setStatusMsg (detachAudio s id) id Status.error msg) id) oc

/-- `playOnce` with manualTrigger true: a rejected play() is terminal and
does not arm the unlock probe. -/
def playOnceManual (s : PState) (id : EntryId) (oc : Oracle) : PState :=
  match getItem s id with
  | none => s
  | some _ =>
    match oc id with
    | PlayOutcome.started => playOnceStart s id
    | PlayOutcome.rejected => handleErrorTerminal (playOnceStart s id) id manualFailedMsg oc

/-- `playWhenAvailable` with manualTrigger true (`retryPlay`). -/
def playWhenAvailableManual (s : PState) (id : EntryId) (oc : Oracle) : PState :=
  match getCurrentlyPlayingId s with
  | some cur =>
    if cur ≠ id then enqueuePlayback s id
    else playOnceManual (removeFromQueue s id) id oc
  | none => playOnceManual (removeFromQueue s id) id oc

/-- `retryPendingAutoplay` (Playlist.tsx lines 545-549): snapshot and clear
the pending set, then retry each entry with the manual flag. -/
def retryPendingAutoplay (s : PState) (oc : Oracle) : PState :=
  s.pending.foldl (fun acc pid => playWhenAvailableManual acc pid oc) { s with pending := [] }

/-- The items created by the scheduling effect for one new recording
(Playlist.tsx lines 585-613): one item per sanitized slot, accumulating
gapSeconds*1000 before use, playNumber = index + 1. -/
def slotItems (recId : String) (createdAt baseTime : ℚ) :
    List RepeatSetting → ℕ → ℚ → List Item
  | [], _, _ => []
  | r :: rest, index, accumulatedMs =>
    let acc := accumulatedMs + r.gapSeconds * 1000
    { id := (recId, index + 1)
      createdAt := createdAt
      scheduledAt := baseTime + acc
      playbackRate := r.playbackRate
      status := Status.scheduled
      errorMessage := none }
      :: slotItems recId createdAt baseTime rest (index + 1) acc

/-- The scheduling effect for one recording (Playlist.tsx lines 578-617):
skip if already seen, else mark seen, append one scheduled item per slot,
arm one timer per item, then arm the autoplay unlock probe. -/
def scheduleRecording (s : PState) (recId : String) (createdAt baseTime : ℚ)
    (settings : List RepeatSetting) : PState :=
  if recId ∈ s.seen then s
  else
    let entries := slotItems recId createdAt baseTime (playlistSanitizedRepeats settings) 0 0
    armAutoplayUnlock
      { s with
        seen := s.seen ++ [recId]
        items := s.items ++ entries
        timers := entries.foldl (fun ts it => insertId ts it.id) s.timers }

/-- The scheduleKey-change sweep (Playlist.tsx lines 562-576): clear every
timer, audio, queue, pending id, seen id and item; the unlocked flag is
not reset. -/
def configChangeSweep (s : PState) : PState :=
  { items := [], timers := [], retryTimers := [], audios := [], queue := [],
    pending := [], seen := [], unlocked := s.unlocked }

/-- The event-loop steps that mutate the Playlist state. -/
inductive Ev where
  | observe (recId : String) (createdAt baseTime : ℚ) (settings : List RepeatSetting)
  | timerFire (id : EntryId) (oc : Oracle)
  | retryTimerFire (id : EntryId) (oc : Oracle)
  | mediaEnded (id : EntryId) (oc : Oracle)
  | mediaError (id : EntryId) (oc : Oracle)
  | manualRetry (id : EntryId) (oc : Oracle)
  | unlockFinished (oc : Oracle)
  | configChange

def applyEvent (s : PState) : Ev → PState
  | Ev.observe recId createdAt baseTime settings =>
    scheduleRecording s recId createdAt baseTime settings
  | Ev.timerFire id oc =>
    if id ∈ s.timers then
      playWhenAvailableNonManual (setStatusKeepMsg s id Status.ready) id oc
    else s
  | Ev.retryTimerFire id oc =>
    if id ∈ s.retryTimers then playWhenAvailableNonManual s id oc else s
  | Ev.mediaEnded id oc =>
    if id ∈ s.audios then
      startNextInQueue (removeItem (setStatusKeepMsg (detachAudio s id) id Status.done) id) oc
    else s
  | Ev.mediaError id oc =>
    if id ∈ s.audios then handleErrorTerminal s id decodeFailedMsg oc else s
  | Ev.manualRetry id oc => playWhenAvailableManual s id oc
  | Ev.unlockFinished oc =>
    if s.unlocked then retryPendingAutoplay s oc else s
  | Ev.configChange => configChangeSweep s

def run (evs : List Ev) : PState := evs.foldl applyEvent initState

def itemIds (s : PState) : List EntryId := s.items.map (fun it => it.id)

/-- The scheduler invariant: item ids are pairwise distinct, every item's
recording is in the seen set, at most one item is in playing status, and
the timer record and the queue hold no duplicate keys. -/
def Inv (s : PState) : Prop :=
  (itemIds s).Nodup
  ∧ (∀ it ∈ s.items, it.id.1 ∈ s.seen)
  ∧ (∀ a ∈ s.items, ∀ b ∈ s.items,
      a.status = Status.playing → b.status = Status.playing → a = b)
  ∧ s.timers.Nodup
  ∧ s.queue.Nodup

/-! ### Invariant preservation -/

theorem insertId_nodup {l : List EntryId} {id : EntryId} (h : l.Nodup) :
    (insertId l id).Nodup := by
  rw [insertId]
  split
  · exact h
  · next hmem =>
    exact List.Nodup.append h (List.nodup_singleton id)
      (fun x hx hx' => hmem ((List.mem_singleton.1 hx') ▸ hx))

theorem idInj_of_nodup {s : PState} (h : (itemIds s).Nodup) :
    ∀ a ∈ s.items, ∀ b ∈ s.items, a.id = b.id → a = b :=
  fun _ ha _ hb hab => List.inj_on_of_nodup_map h ha hb hab

theorem playingSameId_of_none {s : PState} (h : getCurrentlyPlayingId s = none)
    (id : EntryId) : ∀ it ∈ s.items, it.status = Status.playing → it.id = id := by
  intro it hit hst
  exfalso
  rw [getCurrentlyPlayingId, Option.map_eq_none', List.find?_eq_none] at h
  exact h it hit (by simp [hst])

theorem playingSameId_of_some {s : PState}
    (hmx : ∀ a ∈ s.items, ∀ b ∈ s.items,
      a.status = Status.playing → b.status = Status.playing → a = b)
    {id : EntryId} (h : getCurrentlyPlayingId s = some id) :
    ∀ it ∈ s.items, it.status = Status.playing → it.id = id := by
  intro it hit hst
  rw [getCurrentlyPlayingId, Option.map_eq_some'] at h
  obtain ⟨fit, hfind, hfid⟩ := h
  have hfmem := List.mem_of_find?_eq_some hfind
  have hfst : fit.status = Status.playing := by
    have := List.find?_some hfind
    simpa using this
  rw [← hfid]
  exact congrArg Item.id (hmx it hit fit hfmem hst hfst)

theorem inv_initState : Inv initState := by
  refine ⟨List.nodup_nil, ?_, ?_, List.nodup_nil, List.nodup_nil⟩ <;> intro it hit <;>
    simp [initState] at hit

theorem inv_removeFromQueue {s : PState} (h : Inv s) (id : EntryId) :
    Inv (removeFromQueue s id) := by
  obtain ⟨h1, h2, h3, h4, h5⟩ := h
  exact ⟨h1, h2, h3, h4, h5.filter _⟩

theorem inv_clearScheduleTimer {s : PState} (h : Inv s) (id : EntryId) :
    Inv (clearScheduleTimer s id) := by
  obtain ⟨h1, h2, h3, h4, h5⟩ := h
  exact ⟨h1, h2, h3, h4.filter _, h5⟩

theorem inv_attachAudio {s : PState} (h : Inv s) (id : EntryId) :
    Inv (attachAudio s id) := h

theorem inv_detachAudio {s : PState} (h : Inv s) (id : EntryId) :
    Inv (detachAudio s id) := h

theorem inv_addPending {s : PState} (h : Inv s) (id : EntryId) :
    Inv (addPending s id) := h

theorem inv_queueRetry {s : PState} (h : Inv s) (id : EntryId) :
    Inv (queueRetry s id) := h

theorem inv_armAutoplayUnlock {s : PState} (h : Inv s) :
    Inv (armAutoplayUnlock s) := by
  rw [armAutoplayUnlock]
  split
  · exact h
  · exact h

theorem inv_enqueuePlayback {s : PState} (h : Inv s) (id : EntryId) :
    Inv (enqueuePlayback s id) := by
  obtain ⟨h1, h2, h3, h4, h5⟩ := h
  rw [enqueuePlayback]
  split
  · exact ⟨h1, h2, h3, h4, h5⟩
  · next hmem =>
    exact ⟨h1, h2, h3, h4,
      List.Nodup.append h5 (List.nodup_singleton id)
        (fun x hx hx' => hmem ((List.mem_singleton.1 hx') ▸ hx))⟩

theorem inv_removeItem {s : PState} (h : Inv s) (id : EntryId) :
    Inv (removeItem s id) := by
  obtain ⟨h1, h2, h3, h4, h5⟩ := h
  refine ⟨?_, ?_, ?_, h4.filter _, h5.filter _⟩
  · exact List.Nodup.sublist (List.Sublist.map _ (List.filter_sublist _)) h1
  · intro it hit
    exact h2 it (List.mem_of_mem_filter hit)
  · intro a ha b hb hpa hpb
    exact h3 a (List.mem_of_mem_filter ha) b (List.mem_of_mem_filter hb) hpa hpb

theorem inv_configChangeSweep {s : PState} : Inv (configChangeSweep s) := by
  refine ⟨List.nodup_nil, ?_, ?_, List.nodup_nil, List.nodup_nil⟩ <;> intro it hit <;>
    simp [configChangeSweep] at hit

/-- All items in playing status carry the given id. -/
def PlayingSameId (s : PState) (id : EntryId) : Prop :=
  ∀ it ∈ s.items, it.status = Status.playing → it.id = id

theorem inv_setItems_map {s : PState} (h : Inv s) (f : Item → Item)
    (hid : ∀ it, (f it).id = it.id)
    (hmx : ∀ a ∈ s.items, ∀ b ∈ s.items,
      (f a).status = Status.playing → (f b).status = Status.playing → f a = f b) :
    Inv { s with items := s.items.map f } := by
  obtain ⟨h1, h2, h3, h4, h5⟩ := h
  refine ⟨?_, ?_, ?_, h4, h5⟩
  · show ((s.items.map f).map (fun it => it.id)).Nodup
    rw [List.map_map]
    have hmap : s.items.map ((fun it => it.id) ∘ f) = s.items.map (fun it => it.id) :=
      List.map_congr_left (fun it _ => by simp [Function.comp, hid it])
    rw [hmap]
    exact h1
  · intro it hit
    obtain ⟨it₀, hit₀, rfl⟩ := List.mem_map.1 hit
    rw [hid]
    exact h2 it₀ hit₀
  · intro a ha b hb hpa hpb
    obtain ⟨a₀, ha₀, rfl⟩ := List.mem_map.1 ha
    obtain ⟨b₀, hb₀, rfl⟩ := List.mem_map.1 hb
    exact hmx a₀ ha₀ b₀ hb₀ hpa hpb

theorem inv_setStatusKeepMsg {s : PState} (h : Inv s) (id : EntryId) {st : Status}
    (hst : st ≠ Status.playing) : Inv (setStatusKeepMsg s id st) := by
  refine inv_setItems_map h _ (fun it => by by_cases hc : it.id = id <;> simp [hc]) ?_
  intro a ha b hb hpa hpb
  by_cases hca : a.id = id
  · simp only [hca, if_pos rfl] at hpa
    exact absurd hpa hst
  · by_cases hcb : b.id = id
    · simp only [hcb, if_pos rfl] at hpb
      exact absurd hpb hst
    · simp only [hca, if_neg hca, if_neg hcb] at hpa hpb ⊢
      exact h.2.2.1 a ha b hb hpa hpb

theorem inv_setStatusMsg {s : PState} (h : Inv s) (id : EntryId) {st : Status}
    (msg : String) (hst : st ≠ Status.playing) : Inv (setStatusMsg s id st msg) := by
  refine inv_setItems_map h _ (fun it => by by_cases hc : it.id = id <;> simp [hc]) ?_
  intro a ha b hb hpa hpb
  by_cases hca : a.id = id
  · simp only [hca, if_pos rfl] at hpa
    exact absurd hpa hst
  · by_cases hcb : b.id = id
    · simp only [hcb, if_pos rfl] at hpb
      exact absurd hpb hst
    · simp only [hca, if_neg hca, if_neg hcb] at hpa hpb ⊢
      exact h.2.2.1 a ha b hb hpa hpb

theorem inv_setStatusClearMsg_playing {s : PState} (h : Inv s) {id : EntryId}
    (hps : PlayingSameId s id) : Inv (setStatusClearMsg s id Status.playing) := by
  refine inv_setItems_map h _ (fun it => by by_cases hc : it.id = id <;> simp [hc]) ?_
  intro a ha b hb hpa hpb
  by_cases hca : a.id = id
  · by_cases hcb : b.id = id
    · have hab : a = b := idInj_of_nodup h.1 a ha b hb (hca.trans hcb.symm)
      rw [hab]
    · simp only [if_neg hcb] at hpb
      exact absurd (hps b hb hpb) hcb
  · simp only [if_neg hca] at hpa
    exact absurd (hps a ha hpa) hca

theorem inv_playOnceStart {s : PState} (h : Inv s) {id : EntryId}
    (hps : PlayingSameId s id) : Inv (playOnceStart s id) :=
  inv_setStatusClearMsg_playing (inv_attachAudio (inv_clearScheduleTimer h id) id) hps

theorem inv_handleErrorRetryable {s : PState} (h : Inv s) (id : EntryId) (msg : String) :
    Inv (handleErrorRetryable s id msg) :=
  inv_queueRetry (inv_addPending
    (inv_setStatusMsg (inv_detachAudio h id) id msg (by simp)) id) id

theorem inv_playOnceNonManual {s : PState} (h : Inv s) {id : EntryId} (oc : Oracle)
    (hps : PlayingSameId s id) : Inv (playOnceNonManual s id oc) := by
  unfold playOnceNonManual
  split
  · exact h
  · split
    · exact inv_playOnceStart h hps
    · exact inv_armAutoplayUnlock
        (inv_handleErrorRetryable (inv_playOnceStart h hps) id autoplayBlockedMsg)

theorem inv_playWhenAvailableNonManual {s : PState} (h : Inv s) (id : EntryId)
    (oc : Oracle) : Inv (playWhenAvailableNonManual s id oc) := by
  unfold playWhenAvailableNonManual
  split
  · next cur heq =>
    split
    · exact inv_enqueuePlayback h id
    · next hne =>
      have hcur : cur = id := by
        by_contra hc
        exact hne hc
      exact inv_playOnceNonManual (inv_removeFromQueue h id) oc
        (fun it hit hst => playingSameId_of_some h.2.2.1 (hcur ▸ heq) it hit hst)
  · next heq =>
    exact inv_playOnceNonManual (inv_removeFromQueue h id) oc
      (fun it hit hst => playingSameId_of_none heq id it hit hst)

theorem inv_startNextInQueue {s : PState} (h : Inv s) (oc : Oracle) :
    Inv (startNextInQueue s oc) := by
  unfold startNextInQueue
  split
  · exact h
  · next nextId rest heq =>
    obtain ⟨h1, h2, h3, h4, h5⟩ := h
    have h5' : rest.Nodup := by
      rw [heq] at h5
      exact (List.nodup_cons.1 h5).2
    have h' : Inv { s with queue := rest } := ⟨h1, h2, h3, h4, h5'⟩
    exact inv_playWhenAvailableNonManual h' nextId oc

theorem inv_handleErrorTerminal {s : PState} (h : Inv s) (id : EntryId) (msg : String)
    (oc : Oracle) : Inv (handleErrorTerminal s id msg oc) :=
  inv_startNextInQueue (inv_removeItem
    (inv_setStatusMsg (inv_detachAudio h id) id msg (by simp)) id) oc

theorem inv_playOnceManual {s : PState} (h : Inv s) {id : EntryId} (oc : Oracle)
    (hps : PlayingSameId s id) : Inv (playOnceManual s id oc) := by
  unfold playOnceManual
  split
  · exact h
  · split
    · exact inv_playOnceStart h hps
    · exact inv_handleErrorTerminal (inv_playOnceStart h hps) id manualFailedMsg oc

theorem inv_playWhenAvailableManual {s : PState} (h : Inv s) (id : EntryId)
    (oc : Oracle) : Inv (playWhenAvailableManual s id oc) := by
  unfold playWhenAvailableManual
  split
  · next cur heq =>
    split
    · exact inv_enqueuePlayback h id
    · next hne =>
      have hcur : cur = id := by
        by_contra hc
        exact hne hc
      exact inv_playOnceManual (inv_removeFromQueue h id) oc
        (fun it hit hst => playingSameId_of_some h.2.2.1 (hcur ▸ heq) it hit hst)
  · next heq =>
    exact inv_playOnceManual (inv_removeFromQueue h id) oc
      (fun it hit hst => playingSameId_of_none heq id it hit hst)

theorem inv_foldl_manual (oc : Oracle) :
    ∀ (l : List EntryId) (s : PState), Inv s →
      Inv (l.foldl (fun acc pid => playWhenAvailableManual acc pid oc) s) := by
  intro l
  induction l with
  | nil => intro s h; exact h
  | cons pid rest ih =>
    intro s h
    exact ih _ (inv_playWhenAvailableManual h pid oc)

theorem inv_retryPendingAutoplay {s : PState} (h : Inv s) (oc : Oracle) :
    Inv (retryPendingAutoplay s oc) := by
  unfold retryPendingAutoplay
  refine inv_foldl_manual oc s.pending { s with pending := [] } ?_
  exact h

theorem slotItems_mem {recId : String} {c b : ℚ} :
    ∀ (reps : List RepeatSetting) (idx : ℕ) (acc : ℚ),
      ∀ it ∈ slotItems recId c b reps idx acc,
        it.id.1 = recId ∧ it.status = Status.scheduled ∧ idx < it.id.2 := by
  intro reps
  induction reps with
  | nil =>
    intro idx acc it hit
    simp [slotItems] at hit
  | cons r rest ih =>
    intro idx acc it hit
    simp only [slotItems] at hit
    rcases List.mem_cons.1 hit with rfl | hmem
    · exact ⟨rfl, rfl, Nat.lt_succ_self idx⟩
    · obtain ⟨hh1, hh2, hh3⟩ := ih (idx + 1) _ it hmem
      exact ⟨hh1, hh2, Nat.lt_of_succ_lt hh3⟩

theorem slotItems_ids_nodup {recId : String} {c b : ℚ} :
    ∀ (reps : List RepeatSetting) (idx : ℕ) (acc : ℚ),
      ((slotItems recId c b reps idx acc).map (fun it => it.id)).Nodup := by
  intro reps
  induction reps with
  | nil =>
    intro idx acc
    simp [slotItems]
  | cons r rest ih =>
    intro idx acc
    simp only [slotItems, List.map_cons]
    rw [List.nodup_cons]
    refine ⟨?_, ih (idx + 1) _⟩
    intro hmem
    obtain ⟨it, hit, hid⟩ := List.mem_map.1 hmem
    have := (slotItems_mem rest (idx + 1) _ it hit).2.2
    rw [hid] at this
    omega

theorem foldl_insertId_nodup :
    ∀ (its : List Item) (ts : List EntryId), ts.Nodup →
      (its.foldl (fun acc it => insertId acc it.id) ts).Nodup := by
  intro its
  induction its with
  | nil => intro ts h; exact h
  | cons it rest ih =>
    intro ts h
    exact ih _ (insertId_nodup h)

theorem inv_scheduleRecording {s : PState} (h : Inv s) (recId : String)
    (createdAt baseTime : ℚ) (settings : List RepeatSetting) :
    Inv (scheduleRecording s recId createdAt baseTime settings) := by
  unfold scheduleRecording
  split
  · exact h
  · next hseen =>
    apply inv_armAutoplayUnlock
    obtain ⟨h1, h2, h3, h4, h5⟩ := h
    refine ⟨?_, ?_, ?_, foldl_insertId_nodup _ _ h4, h5⟩
    · show ((s.items ++ slotItems recId createdAt baseTime
        (playlistSanitizedRepeats settings) 0 0).map (fun it => it.id)).Nodup
      rw [List.map_append]
      refine List.Nodup.append h1 (slotItems_ids_nodup _ 0 0) ?_
      intro x hx hx'
      obtain ⟨it₀, hit₀, rfl⟩ := List.mem_map.1 hx
      obtain ⟨it₁, hit₁, hideq⟩ := List.mem_map.1 hx'
      have hfst := (slotItems_mem _ 0 0 it₁ hit₁).1
      have : it₀.id.1 ∈ s.seen := h2 it₀ hit₀
      rw [← hideq, hfst] at this
      exact hseen this
    · intro it hit
      rcases List.mem_append.1 hit with hl | hr
      · exact List.mem_append_left _ (h2 it hl)
      · have := (slotItems_mem _ 0 0 it hr).1
        rw [this]
        exact List.mem_append_right _ (List.mem_singleton_self recId)
    · intro a ha b hb hpa hpb
      rcases List.mem_append.1 ha with hal | har
      · rcases List.mem_append.1 hb with hbl | hbr
        · exact h3 a hal b hbl hpa hpb
        · have := (slotItems_mem _ 0 0 b hbr).2.1
          rw [hpb] at this
          exact absurd this (by simp)
      · have := (slotItems_mem _ 0 0 a har).2.1
        rw [hpa] at this
        exact absurd this (by simp)

theorem inv_applyEvent {s : PState} (h : Inv s) (ev : Ev) : Inv (applyEvent s ev) := by
  cases ev with
  | observe recId createdAt baseTime settings =>
    exact inv_scheduleRecording h recId createdAt baseTime settings
  | timerFire id oc =>
    rw [applyEvent]
    split
    · exact inv_playWhenAvailableNonManual (inv_setStatusKeepMsg h id (by simp)) id oc
    · exact h
  | retryTimerFire id oc =>
    rw [applyEvent]
    split
    · exact inv_playWhenAvailableNonManual h id oc
    · exact h
  | mediaEnded id oc =>
    rw [applyEvent]
    split
    · exact inv_startNextInQueue (inv_removeItem
        (inv_setStatusKeepMsg (inv_detachAudio h id) id (by simp)) id) oc
    · exact h
  | mediaError id oc =>
    rw [applyEvent]
    split
    · exact inv_handleErrorTerminal h id decodeFailedMsg oc
    · exact h
  | manualRetry id oc =>
    exact inv_playWhenAvailableManual h id oc
  | unlockFinished oc =>
    rw [applyEvent]
    split
    · exact inv_retryPendingAutoplay h oc
    · exact h
  | configChange =>
    exact inv_configChangeSweep

theorem inv_foldl_applyEvent :
    ∀ (evs : List Ev) (s : PState), Inv s → Inv (evs.foldl applyEvent s) := by
  intro evs
  induction evs with
  | nil => intro s h; exact h
  | cons ev rest ih =>
    intro s h
    exact ih _ (inv_applyEvent h ev)

theorem inv_run (evs : List Ev) : Inv (run evs) :=
  inv_foldl_applyEvent evs initState inv_initState

/-! ### Item lookup under the state operations -/

def getStatus (s : PState) (id : EntryId) : Option Status :=
  (getItem s id).map (fun it => it.status)

theorem getItem_items_map {s : PState} {f : Item → Item}
    (hid : ∀ it, (f it).id = it.id) (id : EntryId) :
    getItem { s with items := s.items.map f } id = (getItem s id).map f := by
  show (s.items.map f).find? (fun it => it.id = id) = _
  rw [List.find?_map]
  have hp : ((fun it : Item => decide (it.id = id)) ∘ f)
      = (fun it : Item => decide (it.id = id)) := by
    funext it
    simp [Function.comp, hid it]
  rw [hp]
  rfl

theorem getItem_setStatusKeepMsg (s : PState) (p : EntryId) (st : Status) (id : EntryId) :
    getItem (setStatusKeepMsg s p st) id
      = (getItem s id).map (fun it => if it.id = p then { it with status := st } else it) :=
  getItem_items_map (fun it => by by_cases hc : it.id = p <;> simp [hc]) id

theorem getItem_setStatusMsg (s : PState) (p : EntryId) (st : Status) (msg : String)
    (id : EntryId) :
    getItem (setStatusMsg s p st msg) id
      = (getItem s id).map
          (fun it => if it.id = p then { it with status := st, errorMessage := some msg } else it) :=
  getItem_items_map (fun it => by by_cases hc : it.id = p <;> simp [hc]) id

theorem getItem_setStatusClearMsg (s : PState) (p : EntryId) (st : Status) (id : EntryId) :
    getItem (setStatusClearMsg s p st) id
      = (getItem s id).map
          (fun it => if it.id = p then { it with status := st, errorMessage := none } else it) :=
  getItem_items_map (fun it => by by_cases hc : it.id = p <;> simp [hc]) id

theorem find?_filter_ne_id (p id : EntryId) (hne : id ≠ p) :
    ∀ l : List Item,
      (l.filter (fun it => it.id ≠ p)).find? (fun it => it.id = id)
        = l.find? (fun it => it.id = id) := by
  intro l
  rw [List.find?_filter]
  congr 1
  funext it
  by_cases hc : it.id = id
  · simp [hc, hne]
  · simp [hc]

theorem getItem_removeItem_ne {s : PState} {p id : EntryId} (hne : id ≠ p) :
    getItem (removeItem s p) id = getItem s id :=
  find?_filter_ne_id p id hne s.items

theorem getItem_removeItem_self (s : PState) (p : EntryId) :
    getItem (removeItem s p) p = none := by
  show (s.items.filter (fun it => it.id ≠ p)).find? (fun it => it.id = p) = none
  rw [List.find?_eq_none]
  intro it hit
  have := List.of_mem_filter hit
  simp at this ⊢
  exact this

theorem getItem_found {s : PState} {id : EntryId} {it : Item}
    (h : getItem s id = some it) : it ∈ s.items ∧ it.id = id := by
  refine ⟨List.mem_of_find?_eq_some h, ?_⟩
  have := List.find?_some h
  simpa using this

theorem getItem_isSome_of_mem {s : PState} {id : EntryId} {it : Item}
    (hmem : it ∈ s.items) (hid : it.id = id) :
    ∃ fit, getItem s id = some fit ∧ fit.id = id := by
  have hsome : (s.items.find? (fun x => x.id = id)).isSome :=
    List.find?_isSome.2 ⟨it, hmem, by simp [hid]⟩
  obtain ⟨fit, hfit⟩ := Option.isSome_iff_exists.1 hsome
  exact ⟨fit, hfit, (getItem_found hfit).2⟩

theorem currentlyPlaying_none_of {s : PState}
    (h : ∀ it ∈ s.items, ¬it.status = Status.playing) :
    getCurrentlyPlayingId s = none := by
  rw [getCurrentlyPlayingId, Option.map_eq_none', List.find?_eq_none]
  intro it hit
  simp [h it hit]

theorem startNextInQueue_cons {s : PState} {h : EntryId} {t : List EntryId}
    (oc : Oracle) (hq : s.queue = h :: t) :
    startNextInQueue s oc = playWhenAvailableNonManual { s with queue := t } h oc := by
  unfold startNextInQueue
  split
  · next heq =>
    rw [hq] at heq
    exact absurd heq (List.cons_ne_nil h t)
  · next nextId rest heq =>
    rw [hq] at heq
    injection heq with h1 h2
    rw [h1, h2]

/-! ### C1: mutual exclusion of playback -/

/-- C1: in every state reachable by any event sequence (any entries, any
overlapping schedule, any play outcomes), no two distinct entries are in
playing status at the same instant; in particular whenever one entry has
been granted playback, every other entry is not playing. -/
theorem playback_mutual_exclusion (evs : List Ev) (a b : EntryId) (hne : a ≠ b)
    (hpa : getStatus (run evs) a = some Status.playing) :
    getStatus (run evs) b ≠ some Status.playing := by
  intro hpb
  rw [getStatus, Option.map_eq_some'] at hpa hpb
  obtain ⟨ita, hga, hsa⟩ := hpa
  obtain ⟨itb, hgb, hsb⟩ := hpb
  obtain ⟨hma, hia⟩ := getItem_found hga
  obtain ⟨hmb, hib⟩ := getItem_found hgb
  have heq := (inv_run evs).2.2.1 ita hma itb hmb hsa hsb
  apply hne
  rw [← hia, ← hib, heq]

/-- A trace that observes one recording and fires the first slot's timer
with the platform granting playback. -/
def mutexTrace : List Ev :=
  [Ev.observe "r1" 0 0 [], Ev.timerFire ("r1", 1) (fun _ => PlayOutcome.started)]

/-- Witness for C1: on the concrete trace, entry (r1,1) is playing and the
theorem yields that the sibling entry (r1,2) is not. -/
theorem playback_mutual_exclusion_witness :
    (("r1", 1) ≠ (("r1", 2) : EntryId)
      ∧ getStatus (run mutexTrace) ("r1", 1) = some Status.playing)
    ∧ getStatus (run mutexTrace) ("r1", 2) ≠ some Status.playing :=
  ⟨⟨by decide, by decide⟩,
    playback_mutual_exclusion mutexTrace ("r1", 1) ("r1", 2) (by decide) (by decide)⟩

/-! ### C8: idempotent observation -/

theorem seen_armAutoplayUnlock (s : PState) : (armAutoplayUnlock s).seen = s.seen := by
  rw [armAutoplayUnlock]
  split <;> rfl

/-- C8: a recording id is scheduled exactly once: re-observing it is a
no-op while it stays in the seen set, and in every reachable state there
are no duplicate (recording, slot) entries and no duplicate timers. -/
theorem idempotent_observation :
    (∀ (s : PState) (recId : String) (c b c' b' : ℚ) (st st' : List RepeatSetting),
        scheduleRecording (scheduleRecording s recId c b st) recId c' b' st'
          = scheduleRecording s recId c b st)
    ∧ (∀ evs : List Ev, (itemIds (run evs)).Nodup ∧ (run evs).timers.Nodup) := by
  constructor
  · intro s recId c b c' b' st st'
    have hstop : ∀ s₂ : PState, recId ∈ s₂.seen →
        scheduleRecording s₂ recId c' b' st' = s₂ := by
      intro s₂ h₂
      rw [scheduleRecording, if_pos h₂]
    by_cases hm : recId ∈ s.seen
    · have h1 : scheduleRecording s recId c b st = s := by
        rw [scheduleRecording, if_pos hm]
      rw [h1]
      exact hstop s hm
    · apply hstop
      rw [scheduleRecording, if_neg hm, seen_armAutoplayUnlock]
      exact List.mem_append_right _ (List.mem_singleton_self recId)
  · intro evs
    exact ⟨(inv_run evs).1, (inv_run evs).2.2.2.1⟩

/-! ### C2: FIFO queueing of deferred playback -/

theorem grant_head {s' : PState} {h : EntryId} {fit : Item} (oc : Oracle)
    (hnp : getCurrentlyPlayingId s' = none)
    (hfit : getItem s' h = some fit)
    (hfid : fit.id = h)
    (hoc : oc h = PlayOutcome.started)
    (hqt : s'.queue.filter (fun q => q ≠ h) = s'.queue) :
    getStatus (playWhenAvailableNonManual s' h oc) h = some Status.playing
    ∧ (playWhenAvailableNonManual s' h oc).queue = s'.queue
    ∧ ∀ p : EntryId, getItem s' p = none →
        getItem (playWhenAvailableNonManual s' h oc) p = none := by
  have hstep : playWhenAvailableNonManual s' h oc
      = playOnceNonManual (removeFromQueue s' h) h oc := by
    simp only [playWhenAvailableNonManual, hnp]
  have hfit' : getItem (removeFromQueue s' h) h = some fit := hfit
  have hplay : playOnceNonManual (removeFromQueue s' h) h oc
      = playOnceStart (removeFromQueue s' h) h := by
    simp only [playOnceNonManual, hfit', hoc]
  rw [hstep, hplay]
  refine ⟨?_, ?_, ?_⟩
  · rw [getStatus, playOnceStart, getItem_setStatusClearMsg]
    show ((getItem (removeFromQueue s' h) h).map _).map _ = _
    rw [hfit']
    simp only [Option.map_some']
    rw [if_pos hfid]
  · show s'.queue.filter (fun q => q ≠ h) = s'.queue
    exact hqt
  · intro p hp
    rw [playOnceStart, getItem_setStatusClearMsg]
    show ((getItem (removeFromQueue s' h) p).map _) = none
    have hp' : getItem (removeFromQueue s' h) p = none := hp
    rw [hp']
    rfl

theorem filter_ne_cons {p h : EntryId} {t : List EntryId} (hne : h ≠ p) (hpt : p ∉ t) :
    (h :: t).filter (fun q => q ≠ p) = h :: t := by
  rw [List.filter_cons, if_pos (by simp [hne])]
  congr 1
  refine List.filter_eq_self.2 (fun q hq' => ?_)
  simp only [decide_eq_true_eq]
  exact fun he => hpt (he ▸ hq')

/-- The terminal-error finish (`handleError` with shouldRetry false,
ending in `startNextInQueue`) grants the queue head playback and advances
the queue, just like the end-of-stream finish. -/
theorem handleErrorTerminal_grants_head {s : PState} {p h : EntryId} {t : List EntryId}
    (msg : String) (oc : Oracle)
    (hps : PlayingSameId s p) (hq : s.queue = h :: t)
    (hne : h ≠ p) (hpt : p ∉ t) (hht : h ∉ t)
    (hex : ∃ it ∈ s.items, it.id = h) (hoc : oc h = PlayOutcome.started) :
    getStatus (handleErrorTerminal s p msg oc) h = some Status.playing
    ∧ (handleErrorTerminal s p msg oc).queue = t
    ∧ getItem (handleErrorTerminal s p msg oc) p = none := by
  obtain ⟨hit, hitmem, hitid⟩ := hex
  have hq3 : (removeItem (setStatusMsg (detachAudio s p) p Status.error msg) p).queue
      = h :: t := by
    show s.queue.filter (fun q => q ≠ p) = h :: t
    rw [hq]
    exact filter_ne_cons hne hpt
  have hnext := startNextInQueue_cons oc hq3
  have hnoplay : getCurrentlyPlayingId
      ({ removeItem (setStatusMsg (detachAudio s p) p Status.error msg) p with
          queue := t }) = none := by
    apply currentlyPlaying_none_of
    intro it hit' hst
    have hfil : it ∈ (setStatusMsg (detachAudio s p) p Status.error msg).items
        ∧ it.id ≠ p := by
      have hmem := List.mem_filter.1 hit'
      refine ⟨hmem.1, ?_⟩
      have := hmem.2
      simpa using this
    obtain ⟨hmem₂, hidne⟩ := hfil
    obtain ⟨it₀, hmem₀, rfl⟩ := List.mem_map.1 hmem₂
    by_cases hc : it₀.id = p
    · simp only [hc, if_pos rfl] at hst
      exact Status.noConfusion hst
    · simp only [if_neg hc] at hst hidne
      exact hc (hps it₀ hmem₀ hst)
  obtain ⟨fit, hfit, hfid⟩ := getItem_isSome_of_mem hitmem hitid
  have hfitS : getItem
      ({ removeItem (setStatusMsg (detachAudio s p) p Status.error msg) p with
          queue := t }) h = some fit := by
    show getItem (removeItem (setStatusMsg (detachAudio s p) p Status.error msg) p) h
      = some fit
    rw [getItem_removeItem_ne hne]
    rw [getItem_setStatusMsg]
    show (getItem s h).map _ = some fit
    rw [hfit]
    simp only [Option.map_some']
    rw [if_neg (by rw [hfid]; exact hne)]
  have hqt : ({ removeItem (setStatusMsg (detachAudio s p) p Status.error msg) p with
      queue := t } : PState).queue.filter (fun q => q ≠ h)
      = ({ removeItem (setStatusMsg (detachAudio s p) p Status.error msg) p with
          queue := t } : PState).queue := by
    show t.filter (fun q => q ≠ h) = t
    refine List.filter_eq_self.2 (fun q hq' => ?_)
    simp only [decide_eq_true_eq]
    exact fun he => hht (he ▸ hq')
  obtain ⟨g1, g2, g3⟩ := grant_head oc hnoplay hfitS hfid hoc hqt
  have hter : handleErrorTerminal s p msg oc
      = playWhenAvailableNonManual
          ({ removeItem (setStatusMsg (detachAudio s p) p Status.error msg) p with
              queue := t }) h oc := hnext
  rw [hter]
  refine ⟨g1, ?_, ?_⟩
  · rw [g2]
  · apply g3
    show getItem (removeItem (setStatusMsg (detachAudio s p) p Status.error msg) p) p
      = none
    exact getItem_removeItem_self _ p

/-- C2: while an entry is playing, any other entry requesting playback is
appended to the wait queue without duplicate insertion, and when the
active entry finishes — by end of stream (mediaEnded), by a terminal
media error (mediaError), or by a rejected manual play — the queue head
is granted playback in arrival order, the queue advancing by one. -/
theorem fifo_queueing :
    (∀ (s : PState) (id cur : EntryId) (oc : Oracle),
        getCurrentlyPlayingId s = some cur → cur ≠ id →
          playWhenAvailableNonManual s id oc = enqueuePlayback s id
          ∧ (id ∉ s.queue → (enqueuePlayback s id).queue = s.queue ++ [id])
          ∧ (id ∈ s.queue → enqueuePlayback s id = s))
    ∧ (∀ (s : PState) (p h : EntryId) (t : List EntryId) (oc : Oracle),
        Inv s → getCurrentlyPlayingId s = some p → s.queue = h :: t →
        h ≠ p → p ∉ t → (∃ it ∈ s.items, it.id = h) →
        oc h = PlayOutcome.started → p ∈ s.audios →
          getStatus (applyEvent s (Ev.mediaEnded p oc)) h = some Status.playing
          ∧ (applyEvent s (Ev.mediaEnded p oc)).queue = t
          ∧ getItem (applyEvent s (Ev.mediaEnded p oc)) p = none)
    ∧ (∀ (s : PState) (p h : EntryId) (t : List EntryId) (oc : Oracle),
        Inv s → getCurrentlyPlayingId s = some p → s.queue = h :: t →
        h ≠ p → p ∉ t → (∃ it ∈ s.items, it.id = h) →
        oc h = PlayOutcome.started → p ∈ s.audios →
          getStatus (applyEvent s (Ev.mediaError p oc)) h = some Status.playing
          ∧ (applyEvent s (Ev.mediaError p oc)).queue = t
          ∧ getItem (applyEvent s (Ev.mediaError p oc)) p = none)
    ∧ (∀ (s : PState) (p h : EntryId) (t : List EntryId) (oc : Oracle),
        Inv s → getCurrentlyPlayingId s = some p → s.queue = h :: t →
        h ≠ p → p ∉ t → (∃ it ∈ s.items, it.id = h) →
        oc p = PlayOutcome.rejected → oc h = PlayOutcome.started →
          getStatus (playWhenAvailableManual s p oc) h = some Status.playing
          ∧ (playWhenAvailableManual s p oc).queue = t
          ∧ getItem (playWhenAvailableManual s p oc) p = none) := by
  have hman : ∀ (s : PState) (p h : EntryId) (t : List EntryId) (oc : Oracle),
      Inv s → getCurrentlyPlayingId s = some p → s.queue = h :: t →
      h ≠ p → p ∉ t → (∃ it ∈ s.items, it.id = h) →
      oc p = PlayOutcome.rejected → oc h = PlayOutcome.started →
        getStatus (playWhenAvailableManual s p oc) h = some Status.playing
        ∧ (playWhenAvailableManual s p oc).queue = t
        ∧ getItem (playWhenAvailableManual s p oc) p = none := by
    intro s p h t oc hInv hcur hq hne hpt hex hocp hoch
    have hps := playingSameId_of_some hInv.2.2.1 hcur
    have hred : playWhenAvailableManual s p oc
        = playOnceManual (removeFromQueue s p) p oc := by
      simp [playWhenAvailableManual, hcur]
    obtain ⟨fit₀, hfind, hfid₀⟩ :
        ∃ f, s.items.find? (fun it => it.status = Status.playing) = some f
          ∧ f.id = p := by
      rw [getCurrentlyPlayingId, Option.map_eq_some'] at hcur
      exact hcur
    have hmem₀ := List.mem_of_find?_eq_some hfind
    obtain ⟨fit₁, hg1, hid1⟩ := getItem_isSome_of_mem hmem₀ hfid₀
    have hg1' : getItem (removeFromQueue s p) p = some fit₁ := hg1
    have hred2 : playOnceManual (removeFromQueue s p) p oc
        = handleErrorTerminal (playOnceStart (removeFromQueue s p) p) p
            manualFailedMsg oc := by
      simp only [playOnceManual, hg1', hocp]
    have hps' : PlayingSameId (playOnceStart (removeFromQueue s p) p) p := by
      intro it hit hst
      have hit' : it ∈ s.items.map (fun x =>
          if x.id = p then { x with status := Status.playing, errorMessage := none }
          else x) := hit
      obtain ⟨it₀, hm₀, rfl⟩ := List.mem_map.1 hit'
      by_cases hc : it₀.id = p
      · simp [hc]
      · rw [if_neg hc] at hst ⊢
        exact hps it₀ hm₀ hst
    have hq' : (playOnceStart (removeFromQueue s p) p).queue = h :: t := by
      show s.queue.filter (fun q => q ≠ p) = h :: t
      rw [hq]
      exact filter_ne_cons hne hpt
    have hht : h ∉ t := by
      have h5 := hInv.2.2.2.2
      rw [hq] at h5
      exact (List.nodup_cons.1 h5).1
    have hex' : ∃ it ∈ (playOnceStart (removeFromQueue s p) p).items, it.id = h := by
      obtain ⟨hit, hitmem, hitid⟩ := hex
      have hm : (if hit.id = p then
            { hit with status := Status.playing, errorMessage := none }
          else hit) ∈ (playOnceStart (removeFromQueue s p) p).items :=
        List.mem_map_of_mem _ hitmem
      rw [if_neg (by rw [hitid]; exact hne)] at hm
      exact ⟨hit, hm, hitid⟩
    obtain ⟨k1, k2, k3⟩ := handleErrorTerminal_grants_head manualFailedMsg oc
      hps' hq' hne hpt hht hex' hoch
    rw [hred, hred2]
    exact ⟨k1, k2, k3⟩
  refine ⟨?_, ?_, ?_, hman⟩
  rotate_right
  · intro s p h t oc hInv hcur hq hne hpt hex hoc haud
    have hps := playingSameId_of_some hInv.2.2.1 hcur
    have hht : h ∉ t := by
      have h5 := hInv.2.2.2.2
      rw [hq] at h5
      exact (List.nodup_cons.1 h5).1
    have happ : applyEvent s (Ev.mediaError p oc)
        = handleErrorTerminal s p decodeFailedMsg oc := by
      rw [applyEvent, if_pos haud]
    rw [happ]
    exact handleErrorTerminal_grants_head decodeFailedMsg oc hps hq hne hpt hht hex hoc
  · intro s id cur oc hcur hne
    refine ⟨?_, ?_, ?_⟩
    · simp only [playWhenAvailableNonManual, hcur]
      rw [if_pos hne]
    · intro hid
      rw [enqueuePlayback, if_neg hid]
    · intro hid
      rw [enqueuePlayback, if_pos hid]
  · intro s p h t oc hInv hcur hq hne hpt hex hoc haud
    obtain ⟨hit, hitmem, hitid⟩ := hex
    have h3 := hInv.2.2.1
    have happ : applyEvent s (Ev.mediaEnded p oc)
        = startNextInQueue
            (removeItem (setStatusKeepMsg (detachAudio s p) p Status.done) p) oc := by
      rw [applyEvent, if_pos haud]
    have hq3 : (removeItem (setStatusKeepMsg (detachAudio s p) p Status.done) p).queue
        = h :: t := by
      show (s.queue.filter (fun q => q ≠ p)) = h :: t
      rw [hq, List.filter_cons, if_pos (by simp [hne])]
      congr 1
      refine List.filter_eq_self.2 (fun q hq' => ?_)
      simp only [decide_eq_true_eq]
      exact fun he => hpt (he ▸ hq')
    have hnext := startNextInQueue_cons oc hq3
    have hnoplay : getCurrentlyPlayingId
        ({ removeItem (setStatusKeepMsg (detachAudio s p) p Status.done) p with
            queue := t }) = none := by
      apply currentlyPlaying_none_of
      intro it hit' hst
      have hfil : it ∈ (setStatusKeepMsg (detachAudio s p) p Status.done).items
          ∧ it.id ≠ p := by
        have hmem := List.mem_filter.1 hit'
        refine ⟨hmem.1, ?_⟩
        have := hmem.2
        simpa using this
      obtain ⟨hmem₂, hidne⟩ := hfil
      obtain ⟨it₀, hmem₀, rfl⟩ := List.mem_map.1 hmem₂
      by_cases hc : it₀.id = p
      · simp only [hc, if_pos rfl] at hst
        exact Status.noConfusion hst
      · simp only [if_neg hc] at hst hidne
        exact hc (playingSameId_of_some h3 hcur it₀ hmem₀ hst)
    have hqnodup : (h :: t).Nodup := by
      have := hInv.2.2.2.2
      rw [hq] at this
      exact this
    have hnott : h ∉ t := (List.nodup_cons.1 hqnodup).1
    obtain ⟨fit, hfit, hfid⟩ := getItem_isSome_of_mem hitmem hitid
    have hfitS : getItem
        ({ removeItem (setStatusKeepMsg (detachAudio s p) p Status.done) p with
            queue := t }) h = some fit := by
      show getItem (removeItem (setStatusKeepMsg (detachAudio s p) p Status.done) p) h
        = some fit
      rw [getItem_removeItem_ne hne]
      rw [getItem_setStatusKeepMsg]
      show (getItem s h).map _ = some fit
      rw [hfit]
      simp only [Option.map_some']
      rw [if_neg (by rw [hfid]; exact hne)]
    have hqt : ({ removeItem (setStatusKeepMsg (detachAudio s p) p Status.done) p with
        queue := t } : PState).queue.filter (fun q => q ≠ h)
        = ({ removeItem (setStatusKeepMsg (detachAudio s p) p Status.done) p with
            queue := t } : PState).queue := by
      show t.filter (fun q => q ≠ h) = t
      refine List.filter_eq_self.2 (fun q hq' => ?_)
      simp only [decide_eq_true_eq]
      exact fun he => hnott (he ▸ hq')
    obtain ⟨g1, g2, g3⟩ := grant_head oc hnoplay hfitS hfid hoc hqt
    rw [happ, hnext]
    refine ⟨g1, ?_, ?_⟩
    · rw [g2]
    · apply g3
      show getItem (removeItem (setStatusKeepMsg (detachAudio s p) p Status.done) p) p
        = none
      exact getItem_removeItem_self _ p

/-- A state with entry (p,1) playing and entries (a,1), (b,1), (c,1) ready
and waiting in the queue in arrival order. -/
def fifoState : PState :=
  { items :=
      [ { id := ("p", 1), createdAt := 0, scheduledAt := 0, playbackRate := 1,
          status := Status.playing, errorMessage := none },
        { id := ("a", 1), createdAt := 0, scheduledAt := 5, playbackRate := 1,
          status := Status.ready, errorMessage := none },
        { id := ("b", 1), createdAt := 0, scheduledAt := 3, playbackRate := 1,
          status := Status.ready, errorMessage := none },
        { id := ("c", 1), createdAt := 0, scheduledAt := 1, playbackRate := 1,
          status := Status.ready, errorMessage := none } ]
    timers := []
    retryTimers := []
    audios := [("p", 1)]
    queue := [("a", 1), ("b", 1), ("c", 1)]
    pending := []
    seen := ["p", "a", "b", "c"]
    unlocked := true }

theorem inv_fifoState : Inv fifoState :=
  ⟨by decide, by decide, by decide, by decide, by decide⟩

/-- The oracle for the rejected-manual-play witness: play() rejects for
(p,1) and succeeds for every other entry. -/
def fifoOracle : Oracle :=
  fun id => if id = ("p", 1) then PlayOutcome.rejected else PlayOutcome.started

/-- Witness for C2: on the concrete state, a request for (d,1) while (p,1)
plays is appended to the queue, and whether (p,1) finishes by end of
stream, by a media error, or by a rejected manual play, the head (a,1) of
the queue is granted playback (in arrival order, although its scheduledAt
is the largest), the queue advancing to [(b,1), (c,1)]. -/
theorem fifo_queueing_witness :
    ((getCurrentlyPlayingId fifoState = some ("p", 1) ∧ ("p", 1) ≠ (("d", 1) : EntryId))
      ∧ (playWhenAvailableNonManual fifoState ("d", 1) (fun _ => PlayOutcome.started)
          = enqueuePlayback fifoState ("d", 1)
        ∧ ((("d", 1) : EntryId) ∉ fifoState.queue →
            (enqueuePlayback fifoState ("d", 1)).queue = fifoState.queue ++ [("d", 1)])
        ∧ ((("d", 1) : EntryId) ∈ fifoState.queue →
            enqueuePlayback fifoState ("d", 1) = fifoState)))
    ∧ ((Inv fifoState ∧ fifoState.queue = ("a", 1) :: [("b", 1), ("c", 1)]
        ∧ ("a", 1) ≠ (("p", 1) : EntryId)
        ∧ (("p", 1) : EntryId) ∉ [(("b", 1) : EntryId), ("c", 1)]
        ∧ (∃ it ∈ fifoState.items, it.id = ("a", 1))
        ∧ (("p", 1) : EntryId) ∈ fifoState.audios)
      ∧ (getStatus
            (applyEvent fifoState (Ev.mediaEnded ("p", 1) (fun _ => PlayOutcome.started)))
            ("a", 1) = some Status.playing
        ∧ (applyEvent fifoState
            (Ev.mediaEnded ("p", 1) (fun _ => PlayOutcome.started))).queue
            = [("b", 1), ("c", 1)]
        ∧ getItem
            (applyEvent fifoState (Ev.mediaEnded ("p", 1) (fun _ => PlayOutcome.started)))
            ("p", 1) = none))
    ∧ (getStatus
          (applyEvent fifoState (Ev.mediaError ("p", 1) (fun _ => PlayOutcome.started)))
          ("a", 1) = some Status.playing
        ∧ (applyEvent fifoState
            (Ev.mediaError ("p", 1) (fun _ => PlayOutcome.started))).queue
            = [("b", 1), ("c", 1)]
        ∧ getItem
            (applyEvent fifoState (Ev.mediaError ("p", 1) (fun _ => PlayOutcome.started)))
            ("p", 1) = none)
    ∧ ((fifoOracle ("p", 1) = PlayOutcome.rejected
        ∧ fifoOracle ("a", 1) = PlayOutcome.started)
      ∧ (getStatus (playWhenAvailableManual fifoState ("p", 1) fifoOracle) ("a", 1)
            = some Status.playing
        ∧ (playWhenAvailableManual fifoState ("p", 1) fifoOracle).queue
            = [("b", 1), ("c", 1)]
        ∧ getItem (playWhenAvailableManual fifoState ("p", 1) fifoOracle) ("p", 1)
            = none)) :=
  ⟨⟨⟨by decide, by decide⟩,
      fifo_queueing.1 fifoState ("d", 1) ("p", 1) (fun _ => PlayOutcome.started)
        (by decide) (by decide)⟩,
    ⟨⟨inv_fifoState, rfl, by decide, by decide, by decide, by decide⟩,
      fifo_queueing.2.1 fifoState ("p", 1) ("a", 1) [("b", 1), ("c", 1)]
        (fun _ => PlayOutcome.started) inv_fifoState
        (by decide) rfl (by decide) (by decide) (by decide) rfl (by decide)⟩,
    fifo_queueing.2.2.1 fifoState ("p", 1) ("a", 1) [("b", 1), ("c", 1)]
      (fun _ => PlayOutcome.started) inv_fifoState
      (by decide) rfl (by decide) (by decide) (by decide) rfl (by decide),
    ⟨⟨by decide, by decide⟩,
      fifo_queueing.2.2.2 fifoState ("p", 1) ("a", 1) [("b", 1), ("c", 1)]
        fifoOracle inv_fifoState
        (by decide) rfl (by decide) (by decide) (by decide) (by decide) (by decide)⟩⟩

theorem getItem_playOnceStart (s : PState) (h id : EntryId) :
    getItem (playOnceStart s h) id
      = (getItem s id).map
          (fun it =>
            if it.id = h then { it with status := Status.playing, errorMessage := none }
            else it) :=
  getItem_setStatusClearMsg (attachAudio (clearScheduleTimer s h) h) h Status.playing id

/-! ### Absence of an entry from every bookkeeping store -/

/-- No bookkeeping for the id remains anywhere in the state. -/
def Absent (s : PState) (id : EntryId) : Prop :=
  getItem s id = none ∧ id ∉ s.timers ∧ id ∉ s.retryTimers ∧ id ∉ s.audios
    ∧ id ∉ s.queue ∧ id ∉ s.pending

theorem not_mem_filter_ne_self (l : List EntryId) (id : EntryId) :
    id ∉ l.filter (fun x => x ≠ id) := by
  intro h
  have := List.of_mem_filter h
  simp at this

theorem not_mem_filter_of_not_mem {l : List EntryId} {id : EntryId}
    (h : id ∉ l) (p : EntryId → Bool) : id ∉ l.filter p :=
  fun hm => h (List.mem_of_mem_filter hm)

theorem not_mem_insertId {l : List EntryId} {id h : EntryId}
    (hmem : id ∉ l) (hne : h ≠ id) : id ∉ insertId l h := by
  rw [insertId]
  split
  · exact hmem
  · intro hm
    rcases List.mem_append.1 hm with hl | hr
    · exact hmem hl
    · exact hne (List.mem_singleton.1 hr).symm

theorem getItem_items_map_none {s : PState} {f : Item → Item}
    (hid : ∀ it, (f it).id = it.id) {id : EntryId} (h : getItem s id = none) :
    getItem { s with items := s.items.map f } id = none := by
  rw [getItem_items_map hid, h]
  rfl

theorem absent_removeItem (s : PState) (id : EntryId) : Absent (removeItem s id) id :=
  ⟨getItem_removeItem_self s id, not_mem_filter_ne_self _ id, not_mem_filter_ne_self _ id,
    not_mem_filter_ne_self _ id, not_mem_filter_ne_self _ id, not_mem_filter_ne_self _ id⟩

theorem absent_playOnceStart {s : PState} {h id : EntryId}
    (hne : h ≠ id) (habs : Absent s id) : Absent (playOnceStart s h) id := by
  obtain ⟨a1, a2, a3, a4, a5, a6⟩ := habs
  refine ⟨?_, ?_, a3, ?_, a5, a6⟩
  · rw [getItem_playOnceStart, a1]
    rfl
  · exact not_mem_filter_of_not_mem a2 _
  · exact not_mem_insertId a4 hne

theorem absent_handleErrorRetryable {s : PState} {h id : EntryId} (msg : String)
    (hne : h ≠ id) (habs : Absent s id) : Absent (handleErrorRetryable s h msg) id := by
  obtain ⟨a1, a2, a3, a4, a5, a6⟩ := habs
  refine ⟨?_, a2, ?_, ?_, a5, ?_⟩
  · show getItem (setStatusMsg (detachAudio s h) h Status.ready msg) id = none
    exact getItem_items_map_none
      (fun it => by by_cases hc : it.id = h <;> simp [hc]) a1
  · exact not_mem_insertId a3 hne
  · exact not_mem_filter_of_not_mem a4 _
  · exact not_mem_insertId a6 hne

theorem absent_armAutoplayUnlock {s : PState} {id : EntryId}
    (habs : Absent s id) : Absent (armAutoplayUnlock s) id := by
  rw [armAutoplayUnlock]
  split
  · exact habs
  · exact habs

theorem absent_playOnceNonManual {s : PState} {h id : EntryId} (oc : Oracle)
    (hne : h ≠ id) (habs : Absent s id) : Absent (playOnceNonManual s h oc) id := by
  rw [playOnceNonManual]
  split
  · exact habs
  · split
    · exact absent_playOnceStart hne habs
    · exact absent_armAutoplayUnlock
        (absent_handleErrorRetryable _ hne (absent_playOnceStart hne habs))

theorem absent_removeFromQueue {s : PState} {h id : EntryId}
    (habs : Absent s id) : Absent (removeFromQueue s h) id := by
  obtain ⟨a1, a2, a3, a4, a5, a6⟩ := habs
  exact ⟨a1, a2, a3, a4, not_mem_filter_of_not_mem a5 _, a6⟩

theorem absent_enqueuePlayback {s : PState} {h id : EntryId}
    (hne : h ≠ id) (habs : Absent s id) : Absent (enqueuePlayback s h) id := by
  obtain ⟨a1, a2, a3, a4, a5, a6⟩ := habs
  rw [enqueuePlayback]
  split
  · exact ⟨a1, a2, a3, a4, a5, a6⟩
  · refine ⟨a1, a2, a3, a4, ?_, a6⟩
    intro hm
    rcases List.mem_append.1 hm with hl | hr
    · exact a5 hl
    · exact hne (List.mem_singleton.1 hr).symm

theorem absent_playWhenAvailableNonManual {s : PState} {h id : EntryId} (oc : Oracle)
    (hne : h ≠ id) (habs : Absent s id) :
    Absent (playWhenAvailableNonManual s h oc) id := by
  rw [playWhenAvailableNonManual]
  split
  · split
    · exact absent_enqueuePlayback hne habs
    · exact absent_playOnceNonManual oc hne (absent_removeFromQueue habs)
  · exact absent_playOnceNonManual oc hne (absent_removeFromQueue habs)

theorem absent_startNextInQueue {s : PState} {id : EntryId} (oc : Oracle)
    (habs : Absent s id) : Absent (startNextInQueue s oc) id := by
  obtain ⟨a1, a2, a3, a4, a5, a6⟩ := habs
  rw [startNextInQueue]
  split
  · exact ⟨a1, a2, a3, a4, a5, a6⟩
  · next nextId rest heq =>
    have hnq : id ∉ (nextId :: rest) := heq ▸ a5
    have hne : nextId ≠ id := fun he => hnq (he ▸ List.mem_cons_self _ _)
    have habs' : Absent { s with queue := rest } id :=
      ⟨a1, a2, a3, a4, fun hm => hnq (List.mem_cons_of_mem _ hm), a6⟩
    exact absent_playWhenAvailableNonManual oc hne habs'

theorem absent_handleErrorTerminal (s : PState) (id : EntryId) (msg : String)
    (oc : Oracle) : Absent (handleErrorTerminal s id msg oc) id :=
  absent_startNextInQueue oc (absent_removeItem _ id)

/-! ### C7: terminal failure handling -/

/-- C7: a non-retryable playback failure (media decode/network error, or a
rejected manually triggered play) marks the entry error with a
human-readable message (never the retry-pending ready state), removes it
from all scheduling stores, and advances the queue via startNextInQueue. -/
theorem terminal_failure_handling :
    (∀ (s : PState) (id : EntryId) (oc : Oracle) (it : Item),
        getItem s id = some it → oc id = PlayOutcome.rejected →
          playOnceManual s id oc
            = handleErrorTerminal (playOnceStart s id) id manualFailedMsg oc
          ∧ getItem (setStatusMsg (detachAudio (playOnceStart s id) id) id
              Status.error manualFailedMsg) id
              = some { it with status := Status.error, errorMessage := some manualFailedMsg }
          ∧ Absent (playOnceManual s id oc) id)
    ∧ (∀ (s : PState) (id : EntryId) (oc : Oracle),
        id ∈ s.audios →
          applyEvent s (Ev.mediaError id oc)
            = handleErrorTerminal s id decodeFailedMsg oc
          ∧ getStatus (setStatusMsg (detachAudio s id) id Status.error decodeFailedMsg) id
              = (getItem s id).map (fun _ => Status.error)
          ∧ Absent (applyEvent s (Ev.mediaError id oc)) id) := by
  constructor
  · intro s id oc it hgi hoc
    have hrw : playOnceManual s id oc
        = handleErrorTerminal (playOnceStart s id) id manualFailedMsg oc := by
      simp only [playOnceManual, hgi, hoc]
    have hidit := (getItem_found hgi).2
    refine ⟨hrw, ?_, ?_⟩
    · rw [getItem_setStatusMsg]
      show ((getItem (playOnceStart s id) id).map _) = _
      rw [getItem_playOnceStart, hgi]
      simp [Option.map_some', hidit]
    · rw [hrw]
      exact absent_handleErrorTerminal _ id _ oc
  · intro s id oc haud
    have hrw : applyEvent s (Ev.mediaError id oc)
        = handleErrorTerminal s id decodeFailedMsg oc := by
      rw [applyEvent, if_pos haud]
    refine ⟨hrw, ?_, ?_⟩
    · rw [getStatus, getItem_setStatusMsg]
      show ((getItem s id).map _).map _ = _
      cases hgi : getItem s id with
      | none => rfl
      | some it =>
        simp [Option.map_some', (getItem_found hgi).2]
    · rw [hrw]
      exact absent_handleErrorTerminal s id _ oc

/-- A state with one ready entry (e,1) holding a retained audio element. -/
def errState : PState :=
  { items :=
      [ { id := ("e", 1), createdAt := 0, scheduledAt := 0, playbackRate := 1,
          status := Status.ready, errorMessage := none } ]
    timers := []
    retryTimers := []
    audios := [("e", 1)]
    queue := []
    pending := []
    seen := ["e"]
    unlocked := true }

def errItem : Item :=
  { id := ("e", 1), createdAt := 0, scheduledAt := 0, playbackRate := 1,
    status := Status.ready, errorMessage := none }

/-- Witness for C7: on the concrete state, a rejected manual retry of (e,1)
and a media error on (e,1) both leave no bookkeeping for (e,1) behind. -/
theorem terminal_failure_handling_witness :
    ((getItem errState ("e", 1) = some errItem
      ∧ (fun _ => PlayOutcome.rejected) (("e", 1) : EntryId) = PlayOutcome.rejected)
      ∧ Absent (playOnceManual errState ("e", 1) (fun _ => PlayOutcome.rejected)) ("e", 1))
    ∧ ((("e", 1) : EntryId) ∈ errState.audios
      ∧ Absent (applyEvent errState
          (Ev.mediaError ("e", 1) (fun _ => PlayOutcome.rejected))) ("e", 1)) :=
  ⟨⟨⟨rfl, rfl⟩,
      (terminal_failure_handling.1 errState ("e", 1) (fun _ => PlayOutcome.rejected)
        errItem rfl rfl).2.2⟩,
    ⟨by decide,
      (terminal_failure_handling.2 errState ("e", 1) (fun _ => PlayOutcome.rejected)
        (by decide)).2.2⟩⟩

/-! ### C10: removal completeness -/

/-- C10: after removeItem(id) no bookkeeping for the id remains anywhere —
not in the timer records, the audio record, the pending-autoplay set, the
playback queue, or the item list — and calling it when no store holds the
id leaves the state unchanged. -/
theorem removeItem_complete :
    (∀ (s : PState) (id : EntryId),
        Absent (removeItem s id) id
        ∧ ∀ it ∈ (removeItem s id).items, it.id ≠ id)
    ∧ (∀ (s : PState) (id : EntryId),
        (∀ it ∈ s.items, it.id ≠ id) → id ∉ s.timers → id ∉ s.retryTimers →
        id ∉ s.audios → id ∉ s.queue → id ∉ s.pending →
          removeItem s id = s) := by
  constructor
  · intro s id
    refine ⟨absent_removeItem s id, ?_⟩
    intro it hit
    have := List.of_mem_filter hit
    simpa using this
  · intro s id h1 h2 h3 h4 h5 h6
    obtain ⟨items, timers, retryTimers, audios, queue, pending, seen, unlocked⟩ := s
    simp only [removeItem, PState.mk.injEq]
    refine ⟨?_, ?_, ?_, ?_, ?_, ?_, trivial, trivial⟩
    · refine List.filter_eq_self.2 (fun it hit => ?_)
      simp only [decide_eq_true_eq]
      exact h1 it hit
    · refine List.filter_eq_self.2 (fun x hx => ?_)
      simp only [decide_eq_true_eq]
      exact fun he => h2 (he ▸ hx)
    · refine List.filter_eq_self.2 (fun x hx => ?_)
      simp only [decide_eq_true_eq]
      exact fun he => h3 (he ▸ hx)
    · refine List.filter_eq_self.2 (fun x hx => ?_)
      simp only [decide_eq_true_eq]
      exact fun he => h4 (he ▸ hx)
    · refine List.filter_eq_self.2 (fun x hx => ?_)
      simp only [decide_eq_true_eq]
      exact fun he => h5 (he ▸ hx)
    · refine List.filter_eq_self.2 (fun x hx => ?_)
      simp only [decide_eq_true_eq]
      exact fun he => h6 (he ▸ hx)

/-- Witness for C10: removing an id that no store holds is a no-op on the
initial state; removing it always leaves it absent everywhere. -/
theorem removeItem_complete_witness :
    ((∀ it ∈ initState.items, it.id ≠ ("x", 1))
      ∧ (("x", 1) : EntryId) ∉ initState.timers
      ∧ (("x", 1) : EntryId) ∉ initState.retryTimers
      ∧ (("x", 1) : EntryId) ∉ initState.audios
      ∧ (("x", 1) : EntryId) ∉ initState.queue
      ∧ (("x", 1) : EntryId) ∉ initState.pending)
    ∧ removeItem initState ("x", 1) = initState
    ∧ Absent (removeItem fifoState ("p", 1)) ("p", 1) :=
  ⟨⟨by decide, by decide, by decide, by decide, by decide, by decide⟩,
    removeItem_complete.2 initState ("x", 1)
      (by decide) (by decide) (by decide) (by decide) (by decide) (by decide),
    (removeItem_complete.1 fifoState ("p", 1)).1⟩

/-! ### C3: per-recording schedule construction over enabled slots

The Playlist revisions under src ignore the enabled flag (src's
Playlist.tsx lines 378-391 and 585-613 schedule all six slots), while the
final Playlist component — the one App.tsx line 631 passes its props to —
is not among the sources; its enabled-slot schedule synthesis is modelled
from the spec and checked against the enabled-aware cumulative offsets
that are in src (nextPlayTimes, src/unnamed/part_008 lines 231-245). -/

/-- Modelled from the spec: one enabled slot of the normalized
configuration, carrying slotNumber (1-based among all 6 raw positions),
playNumber (1-based among enabled slots) and its cumulative offset in ms
(§4.2 derived output); the final Playlist component computing this is
missing from src. -/
structure EnabledSlot where
  slotNumber : ℕ
  playNumber : ℕ
  scheduledOffsetMs : ℚ
deriving DecidableEq, Repr

/-- Modelled from the spec: ordered traversal of the slots accumulating
the running sum of enabled gaps; disabled slots are skipped. -/
def enabledSlotsAux : List RepeatSetting → ℕ → ℕ → ℚ → List EnabledSlot
  | [], _, _, _ => []
  | r :: rest, slotIdx, plays, total =>
    if r.enabled = some false then enabledSlotsAux rest (slotIdx + 1) plays total
    else
      ({ slotNumber := slotIdx + 1, playNumber := plays + 1,
         scheduledOffsetMs := (total + max 0 r.gapSeconds) * 1000 } : EnabledSlot)
        :: enabledSlotsAux rest (slotIdx + 1) (plays + 1) (total + max 0 r.gapSeconds)

def enabledSlots (reps : List RepeatSetting) : List EnabledSlot :=
  enabledSlotsAux reps 0 0 0

/-- Modelled from the spec: the entry synthesized for one enabled slot of a
newly observed recording: entryId derived from recording id and slot
number, scheduledAt = base time + cumulative offset (§4.4). -/
structure SpecEntry where
  entryId : String × ℕ
  playNumber : ℕ
  scheduledAt : ℚ
deriving DecidableEq, Repr

def specScheduleEntries (recId : String) (base : ℚ) (reps : List RepeatSetting) :
    List SpecEntry :=
  (enabledSlots reps).map
    (fun sl => { entryId := (recId, sl.slotNumber), playNumber := sl.playNumber,
                 scheduledAt := base + sl.scheduledOffsetMs })

theorem enabledSlotsAux_slot_gt :
    ∀ (reps : List RepeatSetting) (k p : ℕ) (tot : ℚ),
      ∀ sl ∈ enabledSlotsAux reps k p tot, k < sl.slotNumber := by
  intro reps
  induction reps with
  | nil =>
    intro k p tot sl hsl
    simp [enabledSlotsAux] at hsl
  | cons r rest ih =>
    intro k p tot sl hsl
    rw [enabledSlotsAux] at hsl
    split at hsl
    · exact Nat.lt_of_succ_lt (ih (k + 1) p tot sl hsl)
    · rcases List.mem_cons.1 hsl with rfl | hmem
      · exact Nat.lt_succ_self k
      · exact Nat.lt_of_succ_lt (ih (k + 1) (p + 1) _ sl hmem)

theorem enabledSlotsAux_length :
    ∀ (reps : List RepeatSetting) (k p : ℕ) (tot : ℚ),
      (enabledSlotsAux reps k p tot).length
        = (reps.filter (fun r => r.enabled ≠ some false)).length := by
  intro reps
  induction reps with
  | nil => intro k p tot; rfl
  | cons r rest ih =>
    intro k p tot
    rw [enabledSlotsAux, List.filter_cons]
    by_cases hr : r.enabled = some false
    · rw [if_pos hr, if_neg (by simp [hr])]
      exact ih (k + 1) p tot
    · rw [if_neg hr, if_pos (by simp [hr])]
      simp only [List.length_cons]
      rw [ih (k + 1) (p + 1) _]

theorem mul_div_thousand (q : ℚ) : q * 1000 / 1000 = q := by
  field_simp

theorem slots_times_agree :
    ∀ (reps : List RepeatSetting) (k p : ℕ) (tot : ℚ) (i : ℕ) (x : RepeatSetting),
      reps[i]? = some x →
      ((x.enabled = some false →
          (nextPlayTimesAux tot reps)[i]? = some none
          ∧ ∀ sl ∈ enabledSlotsAux reps k p tot, sl.slotNumber ≠ k + i + 1)
        ∧ (x.enabled ≠ some false →
          ∃ sl ∈ enabledSlotsAux reps k p tot,
            sl.slotNumber = k + i + 1
            ∧ (nextPlayTimesAux tot reps)[i]? = some (some (sl.scheduledOffsetMs / 1000))
            ∧ sl.playNumber
                = p + ((reps.take (i + 1)).filter (fun r => r.enabled ≠ some false)).length)) := by
  intro reps
  induction reps with
  | nil =>
    intro k p tot i x hx
    rw [List.getElem?_nil] at hx
    exact Option.noConfusion hx
  | cons r rest ih =>
    intro k p tot i x hx
    cases i with
    | zero =>
      rw [List.getElem?_cons_zero] at hx
      have hrx : r = x := Option.some.inj hx
      subst hrx
      constructor
      · intro hdis
        rw [nextPlayTimesAux, enabledSlotsAux, if_pos hdis, if_pos hdis]
        refine ⟨by rw [List.getElem?_cons_zero], ?_⟩
        intro sl hsl
        have := enabledSlotsAux_slot_gt rest (k + 1) p tot sl hsl
        omega
      · intro hen
        rw [nextPlayTimesAux, enabledSlotsAux, if_neg hen, if_neg hen]
        refine ⟨_, List.mem_cons_self _ _, rfl, ?_, ?_⟩
        · show _ = some (some ((tot + max 0 r.gapSeconds) * 1000 / 1000))
          rw [mul_div_thousand, List.getElem?_cons_zero]
        · rw [List.take_succ_cons, List.take_zero, List.filter_cons, if_pos (by simp [hen])]
          rfl
    | succ i' =>
      rw [List.getElem?_cons_succ] at hx
      by_cases hr : r.enabled = some false
      · have hrec := ih (k + 1) p tot i' x hx
        constructor
        · intro hdis
          obtain ⟨ha, hb⟩ := (hrec.1) hdis
          rw [nextPlayTimesAux, enabledSlotsAux, if_pos hr, if_pos hr]
          refine ⟨by rw [List.getElem?_cons_succ]; exact ha, ?_⟩
          intro sl hsl
          have := hb sl hsl
          omega
        · intro hen
          obtain ⟨sl, hsl, h1, h2, h3⟩ := (hrec.2) hen
          rw [nextPlayTimesAux, enabledSlotsAux, if_pos hr, if_pos hr]
          refine ⟨sl, hsl, by omega, by rw [List.getElem?_cons_succ]; exact h2, ?_⟩
          rw [List.take_succ_cons, List.filter_cons, if_neg (by simp [hr])]
          exact h3
      · have hrec := ih (k + 1) (p + 1) (tot + max 0 r.gapSeconds) i' x hx
        constructor
        · intro hdis
          obtain ⟨ha, hb⟩ := (hrec.1) hdis
          rw [nextPlayTimesAux, enabledSlotsAux, if_neg hr, if_neg hr]
          refine ⟨by rw [List.getElem?_cons_succ]; exact ha, ?_⟩
          intro sl hsl
          rcases List.mem_cons.1 hsl with rfl | hmem
          · show k + 1 ≠ k + (i' + 1) + 1
            omega
          · have := hb sl hmem
            omega
        · intro hen
          obtain ⟨sl, hsl, h1, h2, h3⟩ := (hrec.2) hen
          rw [nextPlayTimesAux, enabledSlotsAux, if_neg hr, if_neg hr]
          refine ⟨sl, List.mem_cons_of_mem _ hsl, by omega,
            by rw [List.getElem?_cons_succ]; exact h2, ?_⟩
          rw [List.take_succ_cons, List.filter_cons, if_pos (by simp [hr])]
          simp only [List.length_cons]
          omega

/-- C3: the schedule for a new recording has one entry per enabled slot
only; a disabled slot contributes no offset, gets a null cumulative offset
in nextPlayTimes and no entry; an enabled slot's entry is scheduled at
base + the running sum (in ms) of enabled gaps up to and including it —
matching nextPlayTimes — and its playNumber is its 1-based rank among the
enabled slots. -/
theorem schedule_construction (recId : String) (base : ℚ) (reps : List RepeatSetting) :
    ((enabledSlots reps).length = (reps.filter (fun r => r.enabled ≠ some false)).length
      ∧ (specScheduleEntries recId base reps).length
          = (reps.filter (fun r => r.enabled ≠ some false)).length)
    ∧ (∀ (i : ℕ) (x : RepeatSetting), reps[i]? = some x → x.enabled = some false →
        (nextPlayTimes reps)[i]? = some none
        ∧ (∀ sl ∈ enabledSlots reps, sl.slotNumber ≠ i + 1)
        ∧ (∀ e ∈ specScheduleEntries recId base reps, e.entryId ≠ (recId, i + 1)))
    ∧ (∀ (i : ℕ) (x : RepeatSetting), reps[i]? = some x → x.enabled ≠ some false →
        ∃ sl ∈ enabledSlots reps,
          sl.slotNumber = i + 1
          ∧ (nextPlayTimes reps)[i]? = some (some (sl.scheduledOffsetMs / 1000))
          ∧ sl.playNumber
              = ((reps.take (i + 1)).filter (fun r => r.enabled ≠ some false)).length
          ∧ ({ entryId := (recId, i + 1), playNumber := sl.playNumber,
                scheduledAt := base + sl.scheduledOffsetMs } : SpecEntry)
              ∈ specScheduleEntries recId base reps) := by
  refine ⟨⟨enabledSlotsAux_length reps 0 0 0, ?_⟩, ?_, ?_⟩
  · rw [specScheduleEntries, List.length_map]
    exact enabledSlotsAux_length reps 0 0 0
  · intro i x hx hdis
    obtain ⟨ha, hb⟩ := (slots_times_agree reps 0 0 0 i x hx).1 hdis
    refine ⟨ha, ?_, ?_⟩
    · intro sl hsl
      have := hb sl hsl
      omega
    · intro e he hee
      obtain ⟨sl, hsl, rfl⟩ := List.mem_map.1 he
      have hslne := hb sl hsl
      have h2 : sl.slotNumber = i + 1 := by
        have := congrArg Prod.snd hee
        simpa using this
      omega
  · intro i x hx hen
    obtain ⟨sl, hsl, h1, h2, h3⟩ := (slots_times_agree reps 0 0 0 i x hx).2 hen
    have hslot : sl.slotNumber = i + 1 := by omega
    refine ⟨sl, hsl, hslot, h2, by simpa using h3, ?_⟩
    rw [← hslot]
    exact List.mem_map_of_mem _ hsl

/-- The example configuration of the spec: gaps [0,10,10,10,10,10], all
slots enabled. -/
def sixGaps : List RepeatSetting :=
  [ { gapSeconds := 0, playbackRate := 1, enabled := some true },
    { gapSeconds := 10, playbackRate := 1, enabled := some true },
    { gapSeconds := 10, playbackRate := 1, enabled := some true },
    { gapSeconds := 10, playbackRate := 1, enabled := some true },
    { gapSeconds := 10, playbackRate := 1, enabled := some true },
    { gapSeconds := 10, playbackRate := 1, enabled := some true } ]

/-- The same configuration with slot 3 disabled. -/
def sixGapsSlot3Off : List RepeatSetting :=
  [ { gapSeconds := 0, playbackRate := 1, enabled := some true },
    { gapSeconds := 10, playbackRate := 1, enabled := some true },
    { gapSeconds := 10, playbackRate := 1, enabled := some false },
    { gapSeconds := 10, playbackRate := 1, enabled := some true },
    { gapSeconds := 10, playbackRate := 1, enabled := some true },
    { gapSeconds := 10, playbackRate := 1, enabled := some true } ]

/-- Witness for C3: on gaps [0,10,10,10,10,10] the cumulative offsets are
[0,10,20,30,40,50] seconds; disabling slot 3 gives it a null offset and no
entry, and slot 4's playNumber becomes 3. -/
theorem schedule_construction_witness :
    nextPlayTimes sixGaps
      = [some 0, some 10, some 20, some 30, some 40, some 50]
    ∧ (sixGapsSlot3Off[2]?
        = some { gapSeconds := 10, playbackRate := 1, enabled := some false }
      ∧ ({ gapSeconds := 10, playbackRate := 1,
            enabled := some false } : RepeatSetting).enabled = some false
      ∧ ((nextPlayTimes sixGapsSlot3Off)[2]? = some none
        ∧ (∀ sl ∈ enabledSlots sixGapsSlot3Off, sl.slotNumber ≠ 3)
        ∧ (∀ e ∈ specScheduleEntries "r" 0 sixGapsSlot3Off, e.entryId ≠ ("r", 3))))
    ∧ (sixGapsSlot3Off[3]?
        = some { gapSeconds := 10, playbackRate := 1, enabled := some true }
      ∧ ({ gapSeconds := 10, playbackRate := 1,
            enabled := some true } : RepeatSetting).enabled ≠ some false
      ∧ (∃ sl ∈ enabledSlots sixGapsSlot3Off,
          sl.slotNumber = 4
          ∧ (nextPlayTimes sixGapsSlot3Off)[3]? = some (some (sl.scheduledOffsetMs / 1000))
          ∧ sl.playNumber
              = ((sixGapsSlot3Off.take 4).filter (fun r => r.enabled ≠ some false)).length
          ∧ ({ entryId := ("r", 4), playNumber := sl.playNumber,
                scheduledAt := 0 + sl.scheduledOffsetMs } : SpecEntry)
              ∈ specScheduleEntries "r" 0 sixGapsSlot3Off))
    ∧ ((sixGapsSlot3Off.take 4).filter (fun r => r.enabled ≠ some false)).length = 3 :=
  ⟨by norm_num [sixGaps, nextPlayTimes, nextPlayTimesAux, max_def],
    ⟨by decide, rfl,
      (schedule_construction "r" 0 sixGapsSlot3Off).2.1 2
        { gapSeconds := 10, playbackRate := 1, enabled := some false } (by decide) rfl⟩,
    ⟨by decide, by decide,
      (schedule_construction "r" 0 sixGapsSlot3Off).2.2 3
        { gapSeconds := 10, playbackRate := 1, enabled := some true } (by decide) (by decide)⟩,
    by decide⟩

/-! ### C4: expiry teardown -/

/-- `Recording` from src/src/App.tsx (name and url omitted; createdAt as a
millisecond timestamp). -/
structure Recording where
  id : String
  createdAt : ℚ
deriving DecidableEq, Repr

/-- From src/src/App.tsx `fetchRecordings` (lines 309-330): the returned
list keeps only recordings with `createdAt + RECORDING_TTL_MS > now`
(the TTL constant's value is a parameter here; src/src/constants is not
among the sources). -/
def freshRecordings (recs : List Recording) (ttl now : ℚ) : List Recording :=
  recs.filter (fun r => now < r.createdAt + ttl)

/-- Modelled from the spec: the recordings that have exceeded their TTL
(trusted-now ≥ createdAt + TTL, §4.4); the final Playlist component
running the expiry sweep is missing from src. -/
def expiredIds (recs : List Recording) (ttl now : ℚ) : List String :=
  (recs.filter (fun r => r.createdAt + ttl ≤ now)).map (fun r => r.id)

/-- Modelled from the spec: the expiry sweep of the final Playlist
component (§4.4, missing from src): for every expired recording cancel its
timers, drop its audio, remove every sibling entry and queue/pending
membership, and remove its seen-set membership so the id can be
rescheduled later. -/
def expirySweep (s : PState) (recs : List Recording) (ttl now : ℚ) : PState :=
  let expired := expiredIds recs ttl now
  { items := s.items.filter (fun it => it.id.1 ∉ expired)
    timers := s.timers.filter (fun t => t.1 ∉ expired)
    retryTimers := s.retryTimers.filter (fun t => t.1 ∉ expired)
    audios := s.audios.filter (fun a => a.1 ∉ expired)
    queue := s.queue.filter (fun q => q.1 ∉ expired)
    pending := s.pending.filter (fun p => p.1 ∉ expired)
    seen := s.seen.filter (fun rid => rid ∉ expired)
    unlocked := s.unlocked }

/-- C4: after the expiry sweep, an expired recording has zero entries, zero
armed timers (schedule and retry), no retained audio, no queue or
pending-autoplay membership, and its seen-set membership is gone, so a
later observation of the same id schedules it again; the App-side fetch
also drops it from the recordings list. -/
theorem expiry_teardown (s : PState) (recs : List Recording) (ttl now : ℚ)
    (r : Recording) (hr : r ∈ recs) (hexp : r.createdAt + ttl ≤ now) :
    (∀ it ∈ (expirySweep s recs ttl now).items, it.id.1 ≠ r.id)
    ∧ (∀ j : ℕ, (r.id, j) ∉ (expirySweep s recs ttl now).timers
        ∧ (r.id, j) ∉ (expirySweep s recs ttl now).retryTimers
        ∧ (r.id, j) ∉ (expirySweep s recs ttl now).audios
        ∧ (r.id, j) ∉ (expirySweep s recs ttl now).queue
        ∧ (r.id, j) ∉ (expirySweep s recs ttl now).pending)
    ∧ r.id ∉ (expirySweep s recs ttl now).seen
    ∧ (∀ (c b : ℚ) (st : List RepeatSetting),
        (scheduleRecording (expirySweep s recs ttl now) r.id c b st).seen
          = (expirySweep s recs ttl now).seen ++ [r.id])
    ∧ r ∉ freshRecordings recs ttl now := by
  have hmem : r.id ∈ expiredIds recs ttl now :=
    List.mem_map_of_mem _ (List.mem_filter.2 ⟨hr, by simp [hexp]⟩)
  have hseen : r.id ∉ (expirySweep s recs ttl now).seen := by
    intro hm
    have := List.of_mem_filter hm
    simp at this
    exact this hmem
  have hkey : ∀ (l : List EntryId) (j : ℕ),
      ((r.id, j) : EntryId) ∉ l.filter (fun x => x.1 ∉ expiredIds recs ttl now) := by
    intro l j hm
    have := List.of_mem_filter hm
    simp at this
    exact this hmem
  refine ⟨?_, ?_, hseen, ?_, ?_⟩
  · intro it hit heq
    have := List.of_mem_filter hit
    simp at this
    exact this (heq ▸ hmem)
  · intro j
    exact ⟨hkey s.timers j, hkey s.retryTimers j, hkey s.audios j, hkey s.queue j,
      hkey s.pending j⟩
  · intro c b st
    rw [scheduleRecording, if_neg hseen, seen_armAutoplayUnlock]
  · intro hm
    have := List.of_mem_filter hm
    simp only [decide_eq_true_eq] at this
    exact absurd hexp (not_le.2 this)

/-- Witness for C4: a concrete expired recording is fully torn down. -/
theorem expiry_teardown_witness :
    ((⟨"p", 0⟩ : Recording) ∈ [(⟨"p", 0⟩ : Recording)]
      ∧ (⟨"p", 0⟩ : Recording).createdAt + 0 ≤ 0)
    ∧ ((∀ it ∈ (expirySweep fifoState [⟨"p", 0⟩] 0 0).items, it.id.1 ≠ "p")
      ∧ "p" ∉ (expirySweep fifoState [⟨"p", 0⟩] 0 0).seen
      ∧ (⟨"p", 0⟩ : Recording) ∉ freshRecordings [⟨"p", 0⟩] 0 0) :=
  ⟨⟨List.mem_singleton_self _, by simp⟩,
    (expiry_teardown fifoState [⟨"p", 0⟩] 0 0 ⟨"p", 0⟩
        (List.mem_singleton_self _) (by simp)).1,
    (expiry_teardown fifoState [⟨"p", 0⟩] 0 0 ⟨"p", 0⟩
        (List.mem_singleton_self _) (by simp)).2.2.1,
    (expiry_teardown fifoState [⟨"p", 0⟩] 0 0 ⟨"p", 0⟩
        (List.mem_singleton_self _) (by simp)).2.2.2.2⟩

/-! ### C5: trusted-now scheduling -/

/-- From src/src/App.tsx: the serverOffsetMs state starts at 0 (line 334). -/
def initialServerOffsetMs : ℚ := 0

/-- From src/src/App.tsx recordings poll effect (lines 376-396): when a
poll yields a server Date header, the stored offset becomes
serverNow - Date.now(); otherwise it is left unchanged. -/
def pollOffsetUpdate (offsetMs : ℚ) (serverNow : Option ℚ) (localNow : ℚ) : ℚ :=
  match serverNow with
  | some t => t - localNow
  | none => offsetMs

/-- Modelled from the spec (§4.1): trustedNow() = Date.now() + offsetMs;
the final Playlist component consuming the serverOffsetMs prop passed at
src/src/App.tsx line 631 is missing from src. -/
def trustedNow (localNow offsetMs : ℚ) : ℚ := localNow + offsetMs

/-- Modelled from the spec (§4.4): a slot's timer is armed for
max(0, scheduledAt - trustedNow()) milliseconds. -/
def armDelay (scheduledAt now : ℚ) : ℚ := max 0 (scheduledAt - now)

/-- Modelled from the spec: on observing a new recording, synthesize the
enabled-slot entries with baseTime = trustedNow() and pair each with its
armed timer delay. -/
def specArmedSchedule (recId : String) (localNow offsetMs : ℚ)
    (reps : List RepeatSetting) : List (SpecEntry × ℚ) :=
  (specScheduleEntries recId (trustedNow localNow offsetMs) reps).map
    (fun e => (e, armDelay e.scheduledAt (trustedNow localNow offsetMs)))

theorem enabledSlotsAux_offset_nonneg :
    ∀ (reps : List RepeatSetting) (k p : ℕ) (tot : ℚ), 0 ≤ tot →
      ∀ sl ∈ enabledSlotsAux reps k p tot, 0 ≤ sl.scheduledOffsetMs := by
  intro reps
  induction reps with
  | nil =>
    intro k p tot _ sl hsl
    simp [enabledSlotsAux] at hsl
  | cons r rest ih =>
    intro k p tot htot sl hsl
    have htot' : 0 ≤ tot + max 0 r.gapSeconds :=
      add_nonneg htot (le_max_left 0 r.gapSeconds)
    rw [enabledSlotsAux] at hsl
    split at hsl
    · exact ih (k + 1) p tot htot sl hsl
    · rcases List.mem_cons.1 hsl with rfl | hmem
      · exact mul_nonneg htot' (by norm_num)
      · exact ih (k + 1) (p + 1) _ htot' sl hmem

/-- C5: trustedNow() is Date.now() + offsetMs; the offset is 0 while no
server sample was ever obtained and is recomputed from each sample as
server-minus-local; and each scheduled entry's armed delay equals
max(0, scheduledAt - trustedNow()), which for a fresh recording (base =
trustedNow()) is exactly its cumulative enabled offset. -/
theorem trusted_now_scheduling :
    (∀ localNow offsetMs : ℚ, trustedNow localNow offsetMs = localNow + offsetMs)
    ∧ (∀ polls : List ℚ,
        polls.foldl (fun off c => pollOffsetUpdate off none c) initialServerOffsetMs = 0)
    ∧ (∀ off t c : ℚ, pollOffsetUpdate off (some t) c = t - c)
    ∧ (∀ (recId : String) (localNow offsetMs : ℚ) (reps : List RepeatSetting),
        ∀ p ∈ specArmedSchedule recId localNow offsetMs reps,
          p.2 = armDelay p.1.scheduledAt (trustedNow localNow offsetMs)
          ∧ ∃ sl ∈ enabledSlots reps,
              p.1.scheduledAt = trustedNow localNow offsetMs + sl.scheduledOffsetMs
              ∧ p.2 = sl.scheduledOffsetMs) := by
  refine ⟨fun _ _ => rfl, ?_, fun _ _ _ => rfl, ?_⟩
  · intro polls
    induction polls with
    | nil => rfl
    | cons c rest ih => exact ih
  · intro recId localNow offsetMs reps p hp
    rw [specArmedSchedule] at hp
    obtain ⟨e, he, rfl⟩ := List.mem_map.1 hp
    refine ⟨rfl, ?_⟩
    rw [specScheduleEntries] at he
    obtain ⟨sl, hsl, rfl⟩ := List.mem_map.1 he
    refine ⟨sl, hsl, rfl, ?_⟩
    show armDelay (trustedNow localNow offsetMs + sl.scheduledOffsetMs)
        (trustedNow localNow offsetMs) = sl.scheduledOffsetMs
    rw [armDelay, add_sub_cancel_left]
    exact max_eq_right (enabledSlotsAux_offset_nonneg reps 0 0 0 le_rfl sl hsl)

/-- One enabled slot with zero gap, for the C5 witness. -/
def zeroGapConfig : List RepeatSetting :=
  [{ gapSeconds := 0, playbackRate := 1, enabled := some true }]

/-- The single armed entry produced for `zeroGapConfig` at local time 100
with offset 7. -/
def zeroGapArmed : SpecEntry × ℚ :=
  ({ entryId := ("w", 1), playNumber := 1,
     scheduledAt := trustedNow 100 7 + (0 + max 0 (0 : ℚ)) * 1000 },
   armDelay (trustedNow 100 7 + (0 + max 0 (0 : ℚ)) * 1000) (trustedNow 100 7))

theorem zeroGapArmed_mem : zeroGapArmed ∈ specArmedSchedule "w" 100 7 zeroGapConfig := by
  have h : specArmedSchedule "w" 100 7 zeroGapConfig = [zeroGapArmed] := rfl
  rw [h]
  exact List.mem_singleton_self _

/-- Witness for C5 at concrete inputs: two sample-less polls leave the
offset at 0, a poll sample recomputes it as server-minus-local, and the
armed delay of the concrete entry equals its cumulative offset. -/
theorem trusted_now_scheduling_witness :
    trustedNow 100 7 = 100 + 7
    ∧ ([(1 : ℚ), 2].foldl (fun off c => pollOffsetUpdate off none c)
        initialServerOffsetMs = 0)
    ∧ pollOffsetUpdate 0 (some 5) 2 = 5 - 2
    ∧ (zeroGapArmed ∈ specArmedSchedule "w" 100 7 zeroGapConfig
      ∧ zeroGapArmed.2
          = armDelay zeroGapArmed.1.scheduledAt (trustedNow 100 7)
      ∧ ∃ sl ∈ enabledSlots zeroGapConfig,
          zeroGapArmed.1.scheduledAt = trustedNow 100 7 + sl.scheduledOffsetMs
          ∧ zeroGapArmed.2 = sl.scheduledOffsetMs) :=
  ⟨trusted_now_scheduling.1 100 7,
    trusted_now_scheduling.2.1 [1, 2],
    trusted_now_scheduling.2.2.1 0 5 2,
    ⟨zeroGapArmed_mem,
      (trusted_now_scheduling.2.2.2 "w" 100 7 zeroGapConfig zeroGapArmed
        zeroGapArmed_mem).1,
      (trusted_now_scheduling.2.2.2 "w" 100 7 zeroGapConfig zeroGapArmed
        zeroGapArmed_mem).2⟩⟩

end TimedAudioQueue
